import Mathlib

/-!
# Verification of the parse-crs grammar-tree-to-typed-model adapter

Shallow embedding of `src/input.rs`, `src/util.rs`, `src/rule.rs` and
`src/pest.rs`: the enumerated vocabularies (`InputType`, `SelectorType`),
the `Selector` and `Input` models, the `SecRule` aggregate, and their
deserialization from a generic kind-tagged parse tree together with their
serialization back to canonical text.

The pest grammar file (`pest/crs.pest`) and the operator/action components
are not part of the four source files; where a claim needs them they are
modelled from the specification and marked as such in their doc comments.
-/

set_option maxHeartbeats 1000000

namespace ParseCrs

/-- Parse-tree node kinds. The variants `input`, `inputs`, `input_modifier`
and `sec_rule` are the ones named in the source (`Rule::input`, ...).
The remaining variants are modelled from the spec (§6): the grammar also
tags the vocabulary-name child, the selector-key child, and the
operator/action constructs owned by the external components. -/
inductive Rule where
  | input
  | inputs
  | input_modifier
  | input_name
  | input_selector
  | sec_rule
  | operator
  | actions
  | action
deriving DecidableEq, Repr

/-- A pest parse-tree node (`Pair`): a kind tag, the raw matched text, and
the ordered children (`into_inner`). -/
inductive Pair where
  | mk (rule : Rule) (text : String) (children : List Pair)

def Pair.as_rule : Pair → Rule
  | .mk r _ _ => r

def Pair.as_str : Pair → String
  | .mk _ t _ => t

def Pair.into_inner : Pair → List Pair
  | .mk _ _ c => c

/-- Outcome of running a Rust function that may return `Ok`, return `Err`,
or panic (`unwrap` on `None`). -/
inductive RResult (ε : Type) (α : Type) where
  | ok (val : α)
  | err (e : ε)
  | panicked
deriving DecidableEq, Repr

/-- `InputType` from `src/input.rs` (generated by `enum_token!`). -/
inductive InputType where
  | ArgsCombinedSize
  | ArgsGet
  | ArgsGetNames
  | ArgsPost
  | ArgsPostNames
  | Args
  | ArgsNames
  | Duration
  | FilesCombinedSize
  | FilesNames
  | Files
  | Geo
  | Ip
  | MatchedVar
  | MatchedVarName
  | MatchedVars
  | MatchedVarsNames
  | MultipartPartHeaders
  | QueryString
  | RemoteAddr
  | ReqBodyProcessor
  | RequestBasename
  | RequestBody
  | RequestCookiesNames
  | RequestCookies
  | RequestFilename
  | RequestHeadersNames
  | RequestHeaders
  | RequestLine
  | RequestMethod
  | RequestProtocol
  | RequestUri
  | RequestUriRaw
  | ResponseBody
  | ResponseStatus
  | Tx
  | UniqueId
  | Xml
deriving DecidableEq, Repr

/-- `InputType::variants()` from the `enum_token!` expansion, in
declaration order. -/
def InputType.variants : List InputType :=
  [.ArgsCombinedSize, .ArgsGet, .ArgsGetNames, .ArgsPost, .ArgsPostNames,
   .Args, .ArgsNames, .Duration, .FilesCombinedSize, .FilesNames, .Files,
   .Geo, .Ip, .MatchedVar, .MatchedVarName, .MatchedVars,
   .MatchedVarsNames, .MultipartPartHeaders, .QueryString, .RemoteAddr,
   .ReqBodyProcessor, .RequestBasename, .RequestBody,
   .RequestCookiesNames, .RequestCookies, .RequestFilename,
   .RequestHeadersNames, .RequestHeaders, .RequestLine, .RequestMethod,
   .RequestProtocol, .RequestUri, .RequestUriRaw, .ResponseBody,
   .ResponseStatus, .Tx, .UniqueId, .Xml]

/-- `InputType::name()`: the canonical spelling of each symbol. -/
def InputType.name : InputType → String
  | .ArgsCombinedSize => "ARGS_COMBINED_SIZE"
  | .ArgsGet => "ARGS_GET"
  | .ArgsGetNames => "ARGS_GET_NAMES"
  | .ArgsPost => "ARGS_POST"
  | .ArgsPostNames => "ARGS_POST_NAMES"
  | .Args => "ARGS"
  | .ArgsNames => "ARGS_NAMES"
  | .Duration => "DURATION"
  | .FilesCombinedSize => "FILES_COMBINED_SIZE"
  | .FilesNames => "FILES_NAMES"
  | .Files => "FILES"
  | .Geo => "GEO"
  | .Ip => "IP"
  | .MatchedVar => "MATCHED_VAR"
  | .MatchedVarName => "MATCHED_VAR_NAME"
  | .MatchedVars => "MATCHED_VARS"
  | .MatchedVarsNames => "MATCHED_VARS_NAMES"
  | .MultipartPartHeaders => "MULTIPART_PART_HEADERS"
  | .QueryString => "QUERY_STRING"
  | .RemoteAddr => "REMOTE_ADDR"
  | .ReqBodyProcessor => "REQBODY_PROCESSOR"
  | .RequestBasename => "REQUEST_BASENAME"
  | .RequestBody => "REQUEST_BODY"
  | .RequestCookiesNames => "REQUEST_COOKIES_NAMES"
  | .RequestCookies => "REQUEST_COOKIES"
  | .RequestFilename => "REQUEST_FILENAME"
  | .RequestHeadersNames => "REQUEST_HEADERS_NAMES"
  | .RequestHeaders => "REQUEST_HEADERS"
  | .RequestLine => "REQUEST_LINE"
  | .RequestMethod => "REQUEST_METHOD"
  | .RequestProtocol => "REQUEST_PROTOCOL"
  | .RequestUri => "REQUEST_URI"
  | .RequestUriRaw => "REQUEST_URI_RAW"
  | .ResponseBody => "RESPONSE_BODY"
  | .ResponseStatus => "RESPONSE_STATUS"
  | .Tx => "TX"
  | .UniqueId => "UNIQUE_ID"
  | .Xml => "XML"

/-- `InputType::from_name()`: a match on the string literal against each
canonical spelling in declaration order, `None` on fallthrough. -/
def InputType.from_name (s : String) : Option InputType :=
  if s = "ARGS_COMBINED_SIZE" then some .ArgsCombinedSize
  else if s = "ARGS_GET" then some .ArgsGet
  else if s = "ARGS_GET_NAMES" then some .ArgsGetNames
  else if s = "ARGS_POST" then some .ArgsPost
  else if s = "ARGS_POST_NAMES" then some .ArgsPostNames
  else if s = "ARGS" then some .Args
  else if s = "ARGS_NAMES" then some .ArgsNames
  else if s = "DURATION" then some .Duration
  else if s = "FILES_COMBINED_SIZE" then some .FilesCombinedSize
  else if s = "FILES_NAMES" then some .FilesNames
  else if s = "FILES" then some .Files
  else if s = "GEO" then some .Geo
  else if s = "IP" then some .Ip
  else if s = "MATCHED_VAR" then some .MatchedVar
  else if s = "MATCHED_VAR_NAME" then some .MatchedVarName
  else if s = "MATCHED_VARS" then some .MatchedVars
  else if s = "MATCHED_VARS_NAMES" then some .MatchedVarsNames
  else if s = "MULTIPART_PART_HEADERS" then some .MultipartPartHeaders
  else if s = "QUERY_STRING" then some .QueryString
  else if s = "REMOTE_ADDR" then some .RemoteAddr
  else if s = "REQBODY_PROCESSOR" then some .ReqBodyProcessor
  else if s = "REQUEST_BASENAME" then some .RequestBasename
  else if s = "REQUEST_BODY" then some .RequestBody
  else if s = "REQUEST_COOKIES_NAMES" then some .RequestCookiesNames
  else if s = "REQUEST_COOKIES" then some .RequestCookies
  else if s = "REQUEST_FILENAME" then some .RequestFilename
  else if s = "REQUEST_HEADERS_NAMES" then some .RequestHeadersNames
  else if s = "REQUEST_HEADERS" then some .RequestHeaders
  else if s = "REQUEST_LINE" then some .RequestLine
  else if s = "REQUEST_METHOD" then some .RequestMethod
  else if s = "REQUEST_PROTOCOL" then some .RequestProtocol
  else if s = "REQUEST_URI" then some .RequestUri
  else if s = "REQUEST_URI_RAW" then some .RequestUriRaw
  else if s = "RESPONSE_BODY" then some .ResponseBody
  else if s = "RESPONSE_STATUS" then some .ResponseStatus
  else if s = "TX" then some .Tx
  else if s = "UNIQUE_ID" then some .UniqueId
  else if s = "XML" then some .Xml
  else none

/-- `SelectorType` from `src/input.rs` (generated by `enum_token!`):
`Include = ""`, `Exclude = "!"`, `Count = "&"`. -/
inductive SelectorType where
  | Include
  | Exclude
  | Count
deriving DecidableEq, Repr

def SelectorType.variants : List SelectorType :=
  [.Include, .Exclude, .Count]

def SelectorType.name : SelectorType → String
  | .Include => ""
  | .Exclude => "!"
  | .Count => "&"

def SelectorType.from_name (s : String) : Option SelectorType :=
  if s = "" then some .Include
  else if s = "!" then some .Exclude
  else if s = "&" then some .Count
  else none

/-- The `Selector` enum from `src/input.rs`. -/
inductive Selector where
  | None
  | Include (key : String)
  | Exclude (key : String)
  | Count (key : String)
  | CountAll
deriving DecidableEq, Repr

/-- `Selector::arg()`. -/
def Selector.arg : Selector → Option String
  | .None => none
  | .Include s => some s
  | .Exclude s => some s
  | .Count s => some s
  | .CountAll => none

/-- `Selector::type_()`. -/
def Selector.type_ : Selector → Option SelectorType
  | .None => none
  | .Include _ => some .Include
  | .Exclude _ => some .Exclude
  | .Count _ => some .Count
  | .CountAll => some .Count

/-- `Selector::prefix()`: `self.type_().map(|t| t.name())`. -/
def Selector.prefixStr (v : Selector) : Option String :=
  (v.type_).map SelectorType.name

/-- The `InputParseError` enum from `src/input.rs`. -/
inductive InputParseError where
  | UnexpectedRule (r : Rule)
  | UnknownInput (s : String)
  | InvalidSelector (s : String)
  | InvalidModifier (s : String)
deriving DecidableEq, Repr

/-- `Selector::from_parts`: resolves the optional modifier text through
`SelectorType::from_name` with `and_then`, then matches on
`(type_, selector)` in source order. -/
def Selector.from_parts (modifier : Option String) (selector : Option String)
    (input : String) : Except InputParseError Selector :=
  match modifier.bind SelectorType.from_name, selector with
  | some .Exclude, some s => .ok (.Exclude s)
  | some .Exclude, none => .error (.InvalidSelector input)
  | some .Count, some s => .ok (.Count s)
  | some .Count, none => .ok .CountAll
  | none, some s => .ok (.Include s)
  | none, none => .ok .None
  | some _, _ => .error (.InvalidModifier input)

/-- The `Input` struct from `src/input.rs`. -/
structure Input where
  input : InputType
  selector : Selector
deriving DecidableEq, Repr

/-- `PairsExt::next_if_rule`: peek at the next child; consume it only when
its kind matches, otherwise leave the iterator untouched. -/
def nextIfRule (l : List Pair) (r : Rule) : Option Pair × List Pair :=
  match l with
  | [] => (none, l)
  | p :: rest => if p.as_rule = r then (some p, rest) else (none, l)

/-- `<Input as Deserialize>::deserialize` from `src/input.rs`: check the
node kind, capture the full text, peel an optional `input_modifier` child,
`unwrap` the mandatory name child (panicking when it is absent), resolve
the name through `InputType::from_name`, read the optional selector child,
and resolve the parts through `Selector::from_parts`. -/
def Input.deserialize (p : Pair) : RResult InputParseError Input :=
  if p.as_rule ≠ Rule.input then .err (.UnexpectedRule p.as_rule)
  else
    let input_str := p.as_str
    let inner := p.into_inner
    let step := nextIfRule inner Rule.input_modifier
    let modifier := step.1.map Pair.as_str
    match step.2 with
    | [] => .panicked
    | namePair :: rest =>
      match InputType.from_name namePair.as_str with
      | none => .err (.UnknownInput namePair.as_str)
      | some ty =>
        let selector := rest.head?.map Pair.as_str
        match Selector.from_parts modifier selector input_str with
        | .error e => .err e
        | .ok sel => .ok ⟨ty, sel⟩

/-- `<Input as Serialize>::serialize`, writing into a string sink. -/
def Input.serialize (v : Input) : String :=
  let input := v.input.name
  let modifier := v.selector.prefixStr
  let selector := v.selector.arg
  match modifier, selector with
  | some m, some s => m ++ input ++ ":" ++ s
  | some m, none => m ++ input
  | none, some s => input ++ ":" ++ s
  | none, none => input

/-- The body of the `for` loop of `<Vec<Input> as Deserialize>::deserialize`:
deserialize each child in order, pushing results, propagating the first
error (and any panic). -/
def deserializeInputList : List Pair → RResult InputParseError (List Input)
  | [] => .ok []
  | c :: rest =>
    match Input.deserialize c with
    | .ok v =>
      match deserializeInputList rest with
      | .ok vs => .ok (v :: vs)
      | .err e => .err e
      | .panicked => .panicked
    | .err e => .err e
    | .panicked => .panicked

/-- `<Vec<Input> as Deserialize>::deserialize` from `src/input.rs`. -/
def deserializeInputs (p : Pair) : RResult InputParseError (List Input) :=
  if p.as_rule ≠ Rule.inputs then .err (.UnexpectedRule p.as_rule)
  else deserializeInputList p.into_inner

/-- `<Vec<Input> as Serialize>::serialize` from `src/input.rs`: a loop over
the list carrying a `first` flag, writing `|` before every element except
the first. The accumulator pairs the text written so far with the flag. -/
def serializeInputs (xs : List Input) : String :=
  (xs.foldl
    (fun (acc : String × Bool) i =>
      ((if acc.2 then acc.1 else acc.1 ++ "|") ++ i.serialize, false))
    ("", true)).1

/-- Modelled from the spec: the match-operator component is external to the
four source files (`src/operator.rs` is absent); §6 requires it to
implement the same adapter protocol (claim a node kind, expose the node's
raw matched text, serialize back to canonical text). It is modelled as a
wrapper of its canonical text. -/
structure Operator where
  text : String
deriving DecidableEq, Repr

/-- Modelled from the spec: the operator component's wrong-node-kind error
(§7, adapter protocol). -/
inductive OperatorParseError where
  | UnexpectedRule (r : Rule)
deriving DecidableEq, Repr

/-- Modelled from the spec: the operator adapter claims the operator node
kind and otherwise captures the node's text. -/
def Operator.deserialize (p : Pair) : RResult OperatorParseError Operator :=
  if p.as_rule ≠ Rule.operator then .err (.UnexpectedRule p.as_rule)
  else .ok ⟨p.as_str⟩

/-- Modelled from the spec: the action component is external
(`src/action.rs` is absent); one action is modelled as a wrapper of its
canonical text. -/
structure Action where
  text : String
deriving DecidableEq, Repr

/-- Modelled from the spec: the action component's wrong-node-kind error. -/
inductive ActionParseError where
  | UnexpectedRule (r : Rule)
deriving DecidableEq, Repr

/-- Modelled from the spec: one action adapter claims the action node kind
and captures the node's text. -/
def Action.deserialize (p : Pair) : RResult ActionParseError Action :=
  if p.as_rule ≠ Rule.action then .err (.UnexpectedRule p.as_rule)
  else .ok ⟨p.as_str⟩

/-- Modelled from the spec: the action-list adapter claims the action-list
node kind and deserializes each child through the action adapter, in
order, propagating the first error. -/
def deserializeActions (p : Pair) : RResult ActionParseError (List Action) :=
  if p.as_rule ≠ Rule.actions then .err (.UnexpectedRule p.as_rule)
  else go p.into_inner
where
  go : List Pair → RResult ActionParseError (List Action)
    | [] => .ok []
    | c :: rest =>
      match Action.deserialize c with
      | .ok v =>
        match go rest with
        | .ok vs => .ok (v :: vs)
        | .err e => .err e
        | .panicked => .panicked
      | .err e => .err e
      | .panicked => .panicked

/-- The `SecRule` struct from `src/rule.rs`. -/
structure SecRule where
  inputs : List Input
  op : Operator
  actions : List Action
deriving DecidableEq, Repr

/-- The `SecRuleParseError` enum from `src/rule.rs`: the wrong-node-kind
case plus one transparent wrapper (`#[from]`) per sub-component error. -/
inductive SecRuleParseError where
  | UnexpectedRule (r : Rule)
  | Input (e : InputParseError)
  | Operator (e : OperatorParseError)
  | Action (e : ActionParseError)
deriving DecidableEq, Repr

/-- `<SecRule as Deserialize>::deserialize` from `src/rule.rs`: check the
node kind, then `unwrap` three children in fixed order (input list,
operator, action list), deserializing each through its own adapter and
wrapping each sub-error via the `#[from]` conversions. A missing child
panics (`inner.next().unwrap()`). -/
def SecRule.deserialize (p : Pair) : RResult SecRuleParseError SecRule :=
  if p.as_rule ≠ Rule.sec_rule then .err (.UnexpectedRule p.as_rule)
  else
    match p.into_inner with
    | [] => .panicked
    | c1 :: rest1 =>
      match deserializeInputs c1 with
      | .err e => .err (.Input e)
      | .panicked => .panicked
      | .ok inputs =>
        match rest1 with
        | [] => .panicked
        | c2 :: rest2 =>
          match Operator.deserialize c2 with
          | .err e => .err (.Operator e)
          | .panicked => .panicked
          | .ok op =>
            match rest2 with
            | [] => .panicked
            | c3 :: _ =>
              match deserializeActions c3 with
              | .err e => .err (.Action e)
              | .panicked => .panicked
              | .ok actions => .ok ⟨inputs, op, actions⟩

/-! ## Modelled textual grammar

The pest grammar file `pest/crs.pest` is referenced by `src/pest.rs`
(`#[grammar = "pest/crs.pest"]`) but is not among the source files, so the
text-to-parse-tree step is modelled from the spec (§4.3, §6): an input is
an optional one-character modifier (`!` or `&`), a mandatory
vocabulary-name token (uppercase letters and underscores), and an optional
`:`-separated selector key; a list of inputs is `|`-separated; a directive
is `SecRule`, the input list, then the quoted operator and quoted
`,`-separated action list. -/

/-- Modelled from the spec: a character of a vocabulary-name token. -/
def isNameChar (c : Char) : Bool :=
  c.isUpper || c = '_'

/-- Modelled from the spec: a character of a selector key. The key may not
contain the list separator `|`, the modifier symbols `!` and `&`, a space
or a double quote. -/
def isKeyChar (c : Char) : Bool :=
  !(c = '|' || c = '!' || c = '&' || c = ' ' || c = '"')

/-- Split a character list at every occurrence of `sep` (the separator is
dropped; `n` separators yield `n + 1` segments). -/
def splitOnChar (sep : Char) : List Char → List (List Char)
  | [] => [[]]
  | c :: rest =>
    if c = sep then [] :: splitOnChar sep rest
    else
      match splitOnChar sep rest with
      | [] => [[c]]
      | s :: ss => (c :: s) :: ss

/-- Join character-list segments with a single separator between
consecutive segments. -/
def joinSep (sep : Char) : List (List Char) → List Char
  | [] => []
  | [x] => x
  | x :: y :: xs => x ++ sep :: joinSep sep (y :: xs)

/-- Modelled from the spec: the body of one input token after the optional
modifier has been taken — the name is the longest run of name characters,
then either the end of the token or `:` followed by a non-empty key. -/
def parseInputBody (mod : Option Char) (cs : List Char) :
    Option (Option Char × List Char × Option (List Char)) :=
  let nm := cs.takeWhile isNameChar
  let rest := cs.dropWhile isNameChar
  if nm.isEmpty then none
  else
    match rest with
    | [] => some (mod, nm, none)
    | ':' :: k => if !k.isEmpty && k.all isKeyChar then some (mod, nm, some k) else none
    | _ => none

/-- Modelled from the spec: split one input token into its optional
modifier character, name characters and optional key characters. -/
def parseInputCore (cs : List Char) : Option (Option Char × List Char × Option (List Char)) :=
  match cs with
  | c :: rest =>
    if c = '!' || c = '&' then parseInputBody (some c) rest
    else parseInputBody none cs
  | [] => parseInputBody none []

/-- Build the parse-tree node for one input token from its parts, as the
grammar would: an optional `input_modifier` child, the mandatory
`input_name` child, and an optional `input_selector` child. -/
def mkInputPair (orig : List Char) (mod : Option Char) (nm : List Char)
    (key : Option (List Char)) : Pair :=
  Pair.mk Rule.input (String.mk orig)
    ((match mod with
      | some c => [Pair.mk Rule.input_modifier (String.mk [c]) []]
      | none => []) ++
     [Pair.mk Rule.input_name (String.mk nm) []] ++
     (match key with
      | some k => [Pair.mk Rule.input_selector (String.mk k) []]
      | none => []))

/-- Modelled from the spec: parse one input token into its parse-tree
node. -/
def parseInputText (s : String) : Option Pair :=
  (parseInputCore s.data).map fun t => mkInputPair s.data t.1 t.2.1 t.2.2

/-- Modelled from the spec: parse a sequence of input-token segments into
their parse-tree nodes; every segment must be a well-formed input token. -/
def parseSegs : List (List Char) → Option (List Pair)
  | [] => some []
  | seg :: rest =>
    match parseInputCore seg with
    | none => none
    | some t =>
      match parseSegs rest with
      | none => none
      | some ps => some (mkInputPair seg t.1 t.2.1 t.2.2 :: ps)

/-- Modelled from the spec: parse a `|`-separated input list into its
parse-tree node (every segment must be a well-formed input token). -/
def parseInputsText (s : String) : Option Pair :=
  (parseSegs (splitOnChar '|' s.data)).map fun ps => Pair.mk Rule.inputs s ps

/-- Deserialize one input token from text: modelled grammar followed by the
source `Input::deserialize`; `some` exactly on overall success. -/
def deserializeInputText (s : String) : Option Input :=
  match parseInputText s with
  | some p =>
    match Input.deserialize p with
    | .ok v => some v
    | _ => none
  | none => none

/-- Deserialize a `|`-separated input list from text: modelled grammar
followed by the source `Vec<Input>` deserializer. -/
def deserializeInputsText (s : String) : Option (List Input) :=
  match parseInputsText s with
  | some p =>
    match deserializeInputs p with
    | .ok l => some l
    | _ => none
  | none => none

/-- §4.2's rendering of a selector alone: the modifier's canonical
spelling (empty for `None`) followed by the key when one is present. -/
def selectorRender (v : Selector) : String :=
  (v.prefixStr).getD "" ++ (v.arg).getD ""

/-- Modelled from the spec (§4.2): take the modifier spelling off the
front of a rendered selector. -/
def parseSelectorParts (cs : List Char) : Option String × List Char :=
  match cs with
  | '!' :: rest => (some "!", rest)
  | '&' :: rest => (some "&", rest)
  | cs => (none, cs)

/-- Modelled from the spec (§4.2): the remaining characters are the
optional key — absent when empty, otherwise a run of key characters. -/
def parseSelectorKey (cs : List Char) : Option (Option String) :=
  match cs with
  | [] => some none
  | k => if k.all isKeyChar then some (some (String.mk k)) else none

/-- Modelled from the spec (§4.2): split a rendered selector into its
optional modifier spelling and optional key, then resolve through the
source `Selector::from_parts`; `some` exactly on overall success. -/
def deserializeSelectorText (s : String) : Option Selector :=
  let parts := parseSelectorParts s.data
  match parseSelectorKey parts.2 with
  | none => none
  | some k =>
    match Selector.from_parts parts.1 k s with
    | .ok v => some v
    | .error _ => none

/-- Modelled from the spec (§6): the canonical directive surface —
`SecRule`, a space, the input list, a space, the double-quoted operator
text, a space, the double-quoted `,`-separated action list. -/
def SecRule.serialize (r : SecRule) : String :=
  "SecRule " ++ serializeInputs r.inputs ++ " \"" ++ r.op.text ++ "\" \"" ++
    String.mk (joinSep ',' (r.actions.map fun a => a.text.data)) ++ "\""

/-- Modelled from the spec: split a directive's characters into the input
list field, the quoted operator field and the quoted action-list field —
the literal `SecRule `, the input list up to the next space, then the
double-quoted operator, a space, and the double-quoted action list. -/
def parseSecRuleCore (cs : List Char) : Option (List Char × List Char × List Char) :=
  match cs with
  | 'S' :: 'e' :: 'c' :: 'R' :: 'u' :: 'l' :: 'e' :: ' ' :: rest =>
    let inputsChars := rest.takeWhile (fun c => !(c = ' '))
    let rest2 := rest.dropWhile (fun c => !(c = ' '))
    match rest2 with
    | ' ' :: '"' :: r3 =>
      let opChars := r3.takeWhile (fun c => !(c = '"'))
      let r4 := r3.dropWhile (fun c => !(c = '"'))
      match r4 with
      | '"' :: ' ' :: '"' :: r5 =>
        let actChars := r5.takeWhile (fun c => !(c = '"'))
        let r6 := r5.dropWhile (fun c => !(c = '"'))
        match r6 with
        | ['"'] => some (inputsChars, opChars, actChars)
        | _ => none
      | _ => none
    | _ => none
  | _ => none

/-- Modelled from the spec: parse a directive into its parse-tree node,
with the action list split at commas into one `action` child per
segment. -/
def parseSecRuleText (s : String) : Option Pair :=
  match parseSecRuleCore s.data with
  | none => none
  | some (inputsChars, opChars, actChars) =>
    match parseInputsText (String.mk inputsChars) with
    | none => none
    | some inputsPair =>
      some (Pair.mk Rule.sec_rule s
        [inputsPair,
         Pair.mk Rule.operator (String.mk opChars) [],
         Pair.mk Rule.actions (String.mk actChars)
           ((splitOnChar ',' actChars).map fun seg =>
             Pair.mk Rule.action (String.mk seg) [])])

/-- Deserialize a directive from text: modelled grammar followed by the
source `SecRule::deserialize`. -/
def deserializeSecRuleText (s : String) : Option SecRule :=
  match parseSecRuleText s with
  | some p =>
    match SecRule.deserialize p with
    | .ok r => some r
    | _ => none
  | none => none

/-! ## Helper lemmas -/

theorem data_append (a b : String) : (a ++ b).data = a.data ++ b.data := rfl

theorem mk_data (s : String) : String.mk s.data = s := rfl

/-- `InputType::from_name` returns a symbol exactly on that symbol's
canonical spelling. -/
theorem inputType_from_name_eq_some (t : String) (s : InputType) :
    InputType.from_name t = some s ↔ t = s.name := by
  constructor
  · intro h
    unfold InputType.from_name at h
    by_cases h0 : t = "ARGS_COMBINED_SIZE"
    · rw [if_pos h0] at h
      injection h with h2
      subst h2
      exact h0
    rw [if_neg h0] at h
    by_cases h1 : t = "ARGS_GET"
    · rw [if_pos h1] at h
      injection h with h2
      subst h2
      exact h1
    rw [if_neg h1] at h
    by_cases h2 : t = "ARGS_GET_NAMES"
    · rw [if_pos h2] at h
      injection h with h2
      subst h2
      exact h2
    rw [if_neg h2] at h
    by_cases h3 : t = "ARGS_POST"
    · rw [if_pos h3] at h
      injection h with h2
      subst h2
      exact h3
    rw [if_neg h3] at h
    by_cases h4 : t = "ARGS_POST_NAMES"
    · rw [if_pos h4] at h
      injection h with h2
      subst h2
      exact h4
    rw [if_neg h4] at h
    by_cases h5 : t = "ARGS"
    · rw [if_pos h5] at h
      injection h with h2
      subst h2
      exact h5
    rw [if_neg h5] at h
    by_cases h6 : t = "ARGS_NAMES"
    · rw [if_pos h6] at h
      injection h with h2
      subst h2
      exact h6
    rw [if_neg h6] at h
    by_cases h7 : t = "DURATION"
    · rw [if_pos h7] at h
      injection h with h2
      subst h2
      exact h7
    rw [if_neg h7] at h
    by_cases h8 : t = "FILES_COMBINED_SIZE"
    · rw [if_pos h8] at h
      injection h with h2
      subst h2
      exact h8
    rw [if_neg h8] at h
    by_cases h9 : t = "FILES_NAMES"
    · rw [if_pos h9] at h
      injection h with h2
      subst h2
      exact h9
    rw [if_neg h9] at h
    by_cases h10 : t = "FILES"
    · rw [if_pos h10] at h
      injection h with h2
      subst h2
      exact h10
    rw [if_neg h10] at h
    by_cases h11 : t = "GEO"
    · rw [if_pos h11] at h
      injection h with h2
      subst h2
      exact h11
    rw [if_neg h11] at h
    by_cases h12 : t = "IP"
    · rw [if_pos h12] at h
      injection h with h2
      subst h2
      exact h12
    rw [if_neg h12] at h
    by_cases h13 : t = "MATCHED_VAR"
    · rw [if_pos h13] at h
      injection h with h2
      subst h2
      exact h13
    rw [if_neg h13] at h
    by_cases h14 : t = "MATCHED_VAR_NAME"
    · rw [if_pos h14] at h
      injection h with h2
      subst h2
      exact h14
    rw [if_neg h14] at h
    by_cases h15 : t = "MATCHED_VARS"
    · rw [if_pos h15] at h
      injection h with h2
      subst h2
      exact h15
    rw [if_neg h15] at h
    by_cases h16 : t = "MATCHED_VARS_NAMES"
    · rw [if_pos h16] at h
      injection h with h2
      subst h2
      exact h16
    rw [if_neg h16] at h
    by_cases h17 : t = "MULTIPART_PART_HEADERS"
    · rw [if_pos h17] at h
      injection h with h2
      subst h2
      exact h17
    rw [if_neg h17] at h
    by_cases h18 : t = "QUERY_STRING"
    · rw [if_pos h18] at h
      injection h with h2
      subst h2
      exact h18
    rw [if_neg h18] at h
    by_cases h19 : t = "REMOTE_ADDR"
    · rw [if_pos h19] at h
      injection h with h2
      subst h2
      exact h19
    rw [if_neg h19] at h
    by_cases h20 : t = "REQBODY_PROCESSOR"
    · rw [if_pos h20] at h
      injection h with h2
      subst h2
      exact h20
    rw [if_neg h20] at h
    by_cases h21 : t = "REQUEST_BASENAME"
    · rw [if_pos h21] at h
      injection h with h2
      subst h2
      exact h21
    rw [if_neg h21] at h
    by_cases h22 : t = "REQUEST_BODY"
    · rw [if_pos h22] at h
      injection h with h2
      subst h2
      exact h22
    rw [if_neg h22] at h
    by_cases h23 : t = "REQUEST_COOKIES_NAMES"
    · rw [if_pos h23] at h
      injection h with h2
      subst h2
      exact h23
    rw [if_neg h23] at h
    by_cases h24 : t = "REQUEST_COOKIES"
    · rw [if_pos h24] at h
      injection h with h2
      subst h2
      exact h24
    rw [if_neg h24] at h
    by_cases h25 : t = "REQUEST_FILENAME"
    · rw [if_pos h25] at h
      injection h with h2
      subst h2
      exact h25
    rw [if_neg h25] at h
    by_cases h26 : t = "REQUEST_HEADERS_NAMES"
    · rw [if_pos h26] at h
      injection h with h2
      subst h2
      exact h26
    rw [if_neg h26] at h
    by_cases h27 : t = "REQUEST_HEADERS"
    · rw [if_pos h27] at h
      injection h with h2
      subst h2
      exact h27
    rw [if_neg h27] at h
    by_cases h28 : t = "REQUEST_LINE"
    · rw [if_pos h28] at h
      injection h with h2
      subst h2
      exact h28
    rw [if_neg h28] at h
    by_cases h29 : t = "REQUEST_METHOD"
    · rw [if_pos h29] at h
      injection h with h2
      subst h2
      exact h29
    rw [if_neg h29] at h
    by_cases h30 : t = "REQUEST_PROTOCOL"
    · rw [if_pos h30] at h
      injection h with h2
      subst h2
      exact h30
    rw [if_neg h30] at h
    by_cases h31 : t = "REQUEST_URI"
    · rw [if_pos h31] at h
      injection h with h2
      subst h2
      exact h31
    rw [if_neg h31] at h
    by_cases h32 : t = "REQUEST_URI_RAW"
    · rw [if_pos h32] at h
      injection h with h2
      subst h2
      exact h32
    rw [if_neg h32] at h
    by_cases h33 : t = "RESPONSE_BODY"
    · rw [if_pos h33] at h
      injection h with h2
      subst h2
      exact h33
    rw [if_neg h33] at h
    by_cases h34 : t = "RESPONSE_STATUS"
    · rw [if_pos h34] at h
      injection h with h2
      subst h2
      exact h34
    rw [if_neg h34] at h
    by_cases h35 : t = "TX"
    · rw [if_pos h35] at h
      injection h with h2
      subst h2
      exact h35
    rw [if_neg h35] at h
    by_cases h36 : t = "UNIQUE_ID"
    · rw [if_pos h36] at h
      injection h with h2
      subst h2
      exact h36
    rw [if_neg h36] at h
    by_cases h37 : t = "XML"
    · rw [if_pos h37] at h
      injection h with h2
      subst h2
      exact h37
    rw [if_neg h37] at h
    injection h
  · intro h
    subst h
    cases s <;> simp [InputType.from_name, InputType.name]

/-- `SelectorType::from_name` returns a symbol exactly on that symbol's
canonical spelling. -/
theorem selectorType_from_name_eq_some (t : String) (s : SelectorType) :
    SelectorType.from_name t = some s ↔ t = s.name := by
  constructor
  · intro h
    unfold SelectorType.from_name at h
    split_ifs at h <;> (injection h with h2; subst h2; assumption)
  · intro h
    subst h
    cases s <;> simp [SelectorType.from_name, SelectorType.name]

theorem inputType_from_name_name (s : InputType) :
    InputType.from_name s.name = some s :=
  (inputType_from_name_eq_some _ s).mpr rfl

theorem selectorType_from_name_name (s : SelectorType) :
    SelectorType.from_name s.name = some s :=
  (selectorType_from_name_eq_some _ s).mpr rfl

theorem nil_append (s : String) : "" ++ s = s := by
  cases s
  rfl

/-- C3: vocabulary exact inverse — for both `enum_token`-generated
vocabularies (`InputType`, `SelectorType`), `from_name (name s) = some s`
for every symbol `s`, and `from_name t = some s` holds exactly when `t`
is the canonical spelling of `s` (case-sensitive, no trimming, no partial
match); every other text yields `none`. -/
theorem c3_vocabulary_exact_inverse :
    (∀ s : InputType, InputType.from_name s.name = some s)
  ∧ (∀ (t : String) (s : InputType), InputType.from_name t = some s ↔ t = s.name)
  ∧ (∀ s : SelectorType, SelectorType.from_name s.name = some s)
  ∧ (∀ (t : String) (s : SelectorType), SelectorType.from_name t = some s ↔ t = s.name) :=
  ⟨inputType_from_name_name, inputType_from_name_eq_some,
   selectorType_from_name_name, selectorType_from_name_eq_some⟩

/-- C2 counterexample: a modifier whose text is not a recognized
selector-modifier spelling does NOT give an invalid-modifier error —
`from_parts` resolves the modifier with `and_then`, so an unrecognized
modifier collapses to no modifier and the key (or its absence) decides the
result. -/
theorem c2_counterexample :
    Selector.from_parts (some "BOGUS") (some "k") "t" = .ok (.Include "k") ∧
    Selector.from_parts (some "BOGUS") none "t" = .ok .None :=
  ⟨rfl, rfl⟩

/-- C2 (amended): the resolution table of `Selector::from_parts` — the six
recognized rows are as specified; a modifier text that is not a recognized
spelling is treated as if no modifier were given (`Include(key)` with a
key, `None` without); the invalid-modifier error arises exactly for the
explicitly-present empty-string modifier, with or without a key. -/
theorem c2_selector_resolution_table (k i m : String) :
    Selector.from_parts none (some k) i = .ok (.Include k) ∧
    Selector.from_parts none none i = .ok .None ∧
    Selector.from_parts (some "!") (some k) i = .ok (.Exclude k) ∧
    Selector.from_parts (some "!") none i = .error (.InvalidSelector i) ∧
    Selector.from_parts (some "&") (some k) i = .ok (.Count k) ∧
    Selector.from_parts (some "&") none i = .ok .CountAll ∧
    (SelectorType.from_name m = none →
      Selector.from_parts (some m) (some k) i = .ok (.Include k) ∧
      Selector.from_parts (some m) none i = .ok .None) ∧
    Selector.from_parts (some "") (some k) i = .error (.InvalidModifier i) ∧
    Selector.from_parts (some "") none i = .error (.InvalidModifier i) := by
  refine ⟨rfl, rfl, rfl, rfl, rfl, rfl, fun h => ⟨?_, ?_⟩, rfl, rfl⟩ <;>
    simp [Selector.from_parts, Option.bind, h]

/-- C2 witness: the amended unrecognized-modifier rows at the concrete
modifier text `"bogus"`. -/
theorem c2_selector_resolution_table_witness :
    Selector.from_parts (some "bogus") (some "k") "t" = .ok (.Include "k") ∧
    Selector.from_parts (some "bogus") none "t" = .ok .None :=
  (c2_selector_resolution_table "k" "t" "bogus").2.2.2.2.2.2.1 rfl

/-- C9 counterexample: `Selector::from_parts` does not enforce key
non-emptiness — an exclude modifier with an explicitly empty key yields
`Exclude("")`, an `Exclude` variant carrying an empty key. -/
theorem c9_counterexample :
    Selector.from_parts (some "!") (some "") "t" = .ok (.Exclude "") ∧
    ("" : String).length = 0 :=
  ⟨rfl, rfl⟩

/-- C9 (amended): every `Selector` produced by `Selector::from_parts`
carries exactly the supplied key argument (`arg` returns the key argument
verbatim, hence non-empty whenever the supplied key is non-empty, which
`from_parts` itself does not check), the `None` and `CountAll` variants
are exactly the keyless ones, the exclude-modifier-without-key combination
is the invalid-selector parse error and the explicit empty-string modifier
is the invalid-modifier parse error — while an unrecognized modifier text
silently resolves as if absent. -/
theorem from_parts_arg (m k : Option String) (i : String) (v : Selector)
    (h : Selector.from_parts m k i = .ok v) : v.arg = k := by
  unfold Selector.from_parts at h
  split at h <;> first
    | (injection h with h; subst h; rfl)
    | (injection h)

theorem c9_selector_key_invariant :
    (∀ (m k : Option String) (i : String) (v : Selector),
      Selector.from_parts m k i = .ok v → v.arg = k)
  ∧ (∀ v : Selector, v.arg = none ↔ (v = .None ∨ v = .CountAll))
  ∧ (∀ i, Selector.from_parts (some "!") none i = .error (.InvalidSelector i))
  ∧ (∀ (k : Option String) (i : String),
      Selector.from_parts (some "") k i = .error (.InvalidModifier i)) := by
  refine ⟨from_parts_arg, ?_, fun i => rfl, fun k i => ?_⟩
  · intro v
    cases v <;> simp [Selector.arg]
  · cases k <;> rfl

/-- C9 witness: the amended key invariant at a concrete call — the count
modifier with key `"key"` produces a selector whose `arg` is that key. -/
theorem c9_selector_key_invariant_witness :
    (Selector.Count "key").arg = some "key" :=
  c9_selector_key_invariant.1 (some "&") (some "key") "t" (.Count "key") rfl

/-- C10: the selector-modifier vocabulary spells `Include` as the empty
string, so `SelectorType::from_name ""` is `some Include`, and
`Selector::from_parts` with an explicitly-present empty-string modifier
returns the invalid-modifier error whether or not a key is present. -/
theorem c10_empty_modifier (k : Option String) (i : String) :
    SelectorType.from_name "" = some .Include ∧
    Selector.from_parts (some "") k i = .error (.InvalidModifier i) := by
  refine ⟨rfl, ?_⟩
  cases k <;> rfl

/-- Join a list of texts with a single `|` between consecutive elements:
no separator before the first or after the last element, and the empty
list yields the empty text. -/
def joinPipe : List String → String
  | [] => ""
  | x :: xs => xs.foldl (fun acc s => acc ++ "|" ++ s) x

theorem serializeInputs_foldl (xs : List Input) (acc : String) :
    (xs.foldl
      (fun (a : String × Bool) i =>
        ((if a.2 then a.1 else a.1 ++ "|") ++ i.serialize, false))
      (acc, false)).1 =
    xs.foldl (fun a i => a ++ "|" ++ i.serialize) acc := by
  induction xs generalizing acc with
  | nil => rfl
  | cons x xs ih => simpa using ih (acc ++ "|" ++ x.serialize)

/-- The first-flag loop of `Vec<Input>::serialize` renders exactly the
`|`-join of the element renderings. -/
theorem serializeInputs_eq_joinPipe (l : List Input) :
    serializeInputs l = joinPipe (l.map Input.serialize) := by
  cases l with
  | nil => rfl
  | cons x xs =>
    show (xs.foldl _ (("" : String) ++ x.serialize, false)).1 = _
    rw [nil_append, serializeInputs_foldl]
    simp only [List.map_cons, joinPipe, List.foldl_map]

/-- C4: serialization contract — an `Input` renders as exactly one of the
shapes `NAME`, `NAME:key`, `!NAME:key`, `&NAME:key`, `&NAME` according to
its selector variant (`NAME` the input symbol's canonical spelling), and a
list of inputs renders as the element renderings in list order joined by
exactly one `|` between consecutive elements, with no separator before the
first or after the last element, the empty list rendering as empty text. -/
theorem c4_serialization_contract :
    (∀ (ty : InputType) (k : String),
      Input.serialize ⟨ty, .None⟩ = ty.name ∧
      Input.serialize ⟨ty, .Include k⟩ = ty.name ++ ":" ++ k ∧
      Input.serialize ⟨ty, .Exclude k⟩ = "!" ++ ty.name ++ ":" ++ k ∧
      Input.serialize ⟨ty, .Count k⟩ = "&" ++ ty.name ++ ":" ++ k ∧
      Input.serialize ⟨ty, .CountAll⟩ = "&" ++ ty.name)
  ∧ serializeInputs [] = ""
  ∧ (∀ l : List Input, serializeInputs l = joinPipe (l.map Input.serialize)) := by
  refine ⟨fun ty k => ⟨rfl, ?_, rfl, rfl, rfl⟩, rfl, serializeInputs_eq_joinPipe⟩
  show ("" : String) ++ ty.name ++ ":" ++ k = ty.name ++ ":" ++ k
  rw [nil_append]

/-- C5: wrong node kind is a structured error — each of the three adapters
(`Input` claiming `input`, `Vec<Input>` claiming `inputs`, `SecRule`
claiming `sec_rule`), when invoked on a node of a different kind, returns
(rather than crashes with) a wrong-node-kind error carrying the actual
kind observed. -/
theorem c5_wrong_node_kind (p : Pair) :
    (p.as_rule ≠ Rule.input →
      Input.deserialize p = .err (.UnexpectedRule p.as_rule)) ∧
    (p.as_rule ≠ Rule.inputs →
      deserializeInputs p = .err (.UnexpectedRule p.as_rule)) ∧
    (p.as_rule ≠ Rule.sec_rule →
      SecRule.deserialize p = .err (.UnexpectedRule p.as_rule)) := by
  refine ⟨fun h => ?_, fun h => ?_, fun h => ?_⟩ <;>
    simp [Input.deserialize, deserializeInputs, SecRule.deserialize, h]

/-- C5 witness: each adapter rejects a concrete node of the wrong kind,
reporting the kind it saw. -/
theorem c5_wrong_node_kind_witness :
    Input.deserialize (Pair.mk .operator "x" []) = .err (.UnexpectedRule .operator) ∧
    deserializeInputs (Pair.mk .input "y" []) = .err (.UnexpectedRule .input) ∧
    SecRule.deserialize (Pair.mk .inputs "z" []) = .err (.UnexpectedRule .inputs) :=
  ⟨(c5_wrong_node_kind _).1 (by decide),
   (c5_wrong_node_kind _).2.1 (by decide),
   (c5_wrong_node_kind _).2.2 (by decide)⟩

/-- C6: aggregate error attribution and all-or-nothing — when a child of a
rule node fails, `SecRule::deserialize` returns (never a partial
aggregate) an error tagged with the failing sub-component and embedding
that child's own error unchanged: an input-list failure becomes
`Input(e)`, an operator failure (with a well-formed input list) becomes
`Operator(e)`, and an action-list failure becomes `Action(e)`. -/
theorem c6_aggregate_error_attribution (t : String) (ci co ca : Pair)
    (rest : List Pair) :
    (∀ e, deserializeInputs ci = .err e →
      SecRule.deserialize (Pair.mk .sec_rule t (ci :: co :: ca :: rest)) =
        .err (.Input e)) ∧
    (∀ l e, deserializeInputs ci = .ok l → Operator.deserialize co = .err e →
      SecRule.deserialize (Pair.mk .sec_rule t (ci :: co :: ca :: rest)) =
        .err (.Operator e)) ∧
    (∀ l op e, deserializeInputs ci = .ok l → Operator.deserialize co = .ok op →
      deserializeActions ca = .err e →
      SecRule.deserialize (Pair.mk .sec_rule t (ci :: co :: ca :: rest)) =
        .err (.Action e)) := by
  refine ⟨fun e h1 => ?_, fun l e h1 h2 => ?_, fun l op e h1 h2 h3 => ?_⟩ <;>
    simp [SecRule.deserialize, Pair.as_rule, Pair.into_inner, h1] <;>
    simp [h2] <;> simp [h3]

/-- C6 witness: a rule node whose operator child has the wrong kind yields
the operator-tagged error embedding that child's own error, although its
input list is well-formed. -/
theorem c6_aggregate_error_attribution_witness :
    SecRule.deserialize (Pair.mk .sec_rule "r"
      [Pair.mk .inputs "" [], Pair.mk .input "o" [], Pair.mk .actions "" []]) =
      .err (.Operator (.UnexpectedRule .input)) :=
  (c6_aggregate_error_attribution "r" _ _ _ []).2.1 [] (.UnexpectedRule .input)
    rfl rfl

/-- C7: closed rejection — a text that is no canonical `InputType`
spelling maps to `none` under `from_name`, and deserializing an input-kind
node whose mandatory name child carries that text (with or without a
preceding modifier child) fails with the unknown-input error carrying
exactly the offending text. -/
theorem c7_closed_rejection (t : String) (h : ∀ s : InputType, s.name ≠ t) :
    InputType.from_name t = none ∧
    (∀ (txt m : String) (cs rest : List Pair),
      Input.deserialize (Pair.mk .input txt (Pair.mk .input_name t cs :: rest)) =
        .err (.UnknownInput t) ∧
      Input.deserialize (Pair.mk .input txt
          (Pair.mk .input_modifier m [] :: Pair.mk .input_name t cs :: rest)) =
        .err (.UnknownInput t)) := by
  have h0 : InputType.from_name t = none := by
    cases hfn : InputType.from_name t with
    | none => rfl
    | some s => exact absurd ((inputType_from_name_eq_some t s).mp hfn).symm (h s)
  refine ⟨h0, fun txt m cs rest => ⟨?_, ?_⟩⟩ <;>
    simp [Input.deserialize, nextIfRule, Pair.as_rule, Pair.as_str,
      Pair.into_inner, h0]

/-- C7 witness: the concrete text `NOT_A_REAL_INPUT` is rejected both by
`from_name` and by input-node deserialization. -/
theorem c7_closed_rejection_witness :
    InputType.from_name "NOT_A_REAL_INPUT" = none ∧
    Input.deserialize (Pair.mk .input "NOT_A_REAL_INPUT"
        [Pair.mk .input_name "NOT_A_REAL_INPUT" []]) =
      .err (.UnknownInput "NOT_A_REAL_INPUT") := by
  have h := c7_closed_rejection "NOT_A_REAL_INPUT" (fun s => by cases s <;> decide)
  exact ⟨h.1, (h.2 "NOT_A_REAL_INPUT" "" [] []).1⟩

theorem operator_deserialize_ne_panicked (p : Pair) :
    Operator.deserialize p ≠ .panicked := by
  unfold Operator.deserialize
  split <;> simp

theorem action_deserialize_ne_panicked (p : Pair) :
    Action.deserialize p ≠ .panicked := by
  unfold Action.deserialize
  split <;> simp

theorem deserializeActions_go_ne_panicked (l : List Pair) :
    deserializeActions.go l ≠ .panicked := by
  induction l with
  | nil => simp [deserializeActions.go]
  | cons c rest ih =>
    unfold deserializeActions.go
    cases hc : Action.deserialize c with
    | ok v =>
      cases hr : deserializeActions.go rest with
      | ok vs => simp
      | err e => simp
      | panicked => exact absurd hr ih
    | err e => simp
    | panicked => exact absurd hc (action_deserialize_ne_panicked c)

theorem deserializeActions_ne_panicked (p : Pair) :
    deserializeActions p ≠ .panicked := by
  unfold deserializeActions
  split
  · simp
  · exact deserializeActions_go_ne_panicked _

theorem deserializeInputList_ne_panicked (l : List Pair)
    (h : ∀ c ∈ l, Input.deserialize c ≠ .panicked) :
    deserializeInputList l ≠ .panicked := by
  induction l with
  | nil => simp [deserializeInputList]
  | cons c rest ih =>
    unfold deserializeInputList
    cases hc : Input.deserialize c with
    | ok v =>
      cases hr : deserializeInputList rest with
      | ok vs => simp
      | err e => simp
      | panicked => exact absurd hr (ih fun d hd => h d (List.mem_cons_of_mem c hd))
    | err e => simp
    | panicked => exact absurd hc (h c (List.mem_cons_self c rest))

/-- C8 counterexample: deserialization does NOT always return a value —
`inner.next().unwrap()` panics on an input-kind node with no mandatory
name child and on a rule-kind node with fewer than three children. -/
theorem c8_counterexample :
    Input.deserialize (Pair.mk .input "ARGS" []) = .panicked ∧
    SecRule.deserialize (Pair.mk .sec_rule "SecRule"
      [Pair.mk .inputs "" []]) = .panicked :=
  ⟨rfl, rfl⟩

/-- C8 (amended): deserialization terminates and returns `Ok` or an error
value for every parse-tree node whose mandatory children are present,
panicking (via `unwrap`) exactly when one is missing: `Input` panics
precisely on an input-kind node with no child left after the optional
modifier, `Vec<Input>` returns a value whenever none of its children makes
`Input` panic, and `SecRule` returns a value on a node of the wrong kind
and on a rule node with at least three children whose input-list child
does not itself panic. -/
theorem c8_failures_are_values :
    (∀ p : Pair, Input.deserialize p = .panicked ↔
      (p.as_rule = .input ∧ (nextIfRule p.into_inner Rule.input_modifier).2 = []))
  ∧ (∀ p : Pair, (∀ c ∈ p.into_inner, Input.deserialize c ≠ .panicked) →
      deserializeInputs p ≠ .panicked)
  ∧ (∀ (t : String) (i o a : Pair) (rest : List Pair),
      deserializeInputs i ≠ .panicked →
      SecRule.deserialize (Pair.mk .sec_rule t (i :: o :: a :: rest)) ≠ .panicked)
  ∧ (∀ p : Pair, p.as_rule ≠ .sec_rule → SecRule.deserialize p ≠ .panicked) := by
  refine ⟨fun p => ?_, fun p h => ?_, fun t i o a rest h => ?_, fun p h => ?_⟩
  · unfold Input.deserialize
    by_cases hr : p.as_rule = Rule.input
    · simp only [hr, ne_eq, not_true_eq_false, if_false]
      cases hstep : (nextIfRule p.into_inner Rule.input_modifier).2 with
      | nil => simp [hstep, hr]
      | cons np rest =>
        simp only [hstep, hr, true_and]
        cases hfn : InputType.from_name np.as_str with
        | none => simp
        | some ty =>
          simp only [hfn]
          cases hfp : Selector.from_parts
              ((nextIfRule p.into_inner Rule.input_modifier).1.map Pair.as_str)
              (rest.head?.map Pair.as_str) p.as_str with
          | error e => simp [hfp]
          | ok sel => simp [hfp]
    · simp [hr]
  · unfold deserializeInputs
    split
    · simp
    · exact deserializeInputList_ne_panicked _ h
  · cases hi : deserializeInputs i with
    | ok l =>
      cases ho : Operator.deserialize o with
      | ok op =>
        cases ha : deserializeActions a with
        | ok acts => simp [SecRule.deserialize, Pair.as_rule, Pair.into_inner, hi, ho, ha]
        | err e => simp [SecRule.deserialize, Pair.as_rule, Pair.into_inner, hi, ho, ha]
        | panicked => exact absurd ha (deserializeActions_ne_panicked a)
      | err e => simp [SecRule.deserialize, Pair.as_rule, Pair.into_inner, hi, ho]
      | panicked => exact absurd ho (operator_deserialize_ne_panicked o)
    | err e => simp [SecRule.deserialize, Pair.as_rule, Pair.into_inner, hi]
    | panicked => exact absurd hi h
  · simp [SecRule.deserialize, h]

/-- C8 witness: the amended statement at concrete nodes — a well-formed
input node inside an inputs node deserializes to a value, and a rule node
with three children returns a value. -/
theorem c8_failures_are_values_witness :
    deserializeInputs (Pair.mk .inputs "ARGS"
      [Pair.mk .input "ARGS" [Pair.mk .input_name "ARGS" []]]) ≠ .panicked ∧
    SecRule.deserialize (Pair.mk .sec_rule "r"
      [Pair.mk .inputs "" [], Pair.mk .operator "o" [],
       Pair.mk .actions "" []]) ≠ .panicked :=
  ⟨c8_failures_are_values.2.1 _ (by intro c hc; simp only [Pair.into_inner, List.mem_singleton] at hc; subst hc; decide),
   c8_failures_are_values.2.2.1 "r" _ _ _ [] (by decide)⟩

/-! ## Round-trip infrastructure -/

theorem str_append_assoc (a b c : String) : a ++ b ++ c = a ++ (b ++ c) := by
  cases a
  cases b
  cases c
  show String.mk _ = String.mk _
  rw [List.append_assoc]

theorem nameChar_ne {c : Char} (h : isNameChar c = true) :
    c ≠ '!' ∧ c ≠ '&' ∧ c ≠ ':' ∧ c ≠ '|' ∧ c ≠ ' ' ∧ c ≠ '"' := by
  refine ⟨?_, ?_, ?_, ?_, ?_, ?_⟩ <;>
    (intro e; subst e; exact absurd h (by decide))

theorem keyChar_ne {c : Char} (h : isKeyChar c = true) :
    c ≠ '|' ∧ c ≠ '!' ∧ c ≠ '&' ∧ c ≠ ' ' ∧ c ≠ '"' := by
  refine ⟨?_, ?_, ?_, ?_, ?_⟩ <;>
    (intro e; subst e; exact absurd h (by decide))

theorem takeWhile_all_append (p : Char → Bool) (l r : List Char)
    (hl : l.all p = true) (hr : ∀ c, r.head? = some c → p c = false) :
    (l ++ r).takeWhile p = l ∧ (l ++ r).dropWhile p = r := by
  induction l with
  | nil =>
    cases r with
    | nil => exact ⟨rfl, rfl⟩
    | cons c r' =>
      have hc := hr c rfl
      simp [List.takeWhile, List.dropWhile, hc]
  | cons c l' ih =>
    rw [List.all_cons, Bool.and_eq_true] at hl
    have := ih hl.2
    simp [List.takeWhile, List.dropWhile, hl.1, this.1, this.2]

theorem splitOnChar_not_mem (sep : Char) (xs : List Char) (h : sep ∉ xs) :
    splitOnChar sep xs = [xs] := by
  induction xs with
  | nil => rfl
  | cons c rest ih =>
    have hc : ¬c = sep := fun e => h (e ▸ List.mem_cons_self c rest)
    have hrest := ih (fun hm => h (List.mem_cons_of_mem c hm))
    simp [splitOnChar, hc, hrest]

theorem splitOnChar_ne_nil (sep : Char) (xs : List Char) :
    splitOnChar sep xs ≠ [] := by
  cases xs with
  | nil => simp [splitOnChar]
  | cons c rest =>
    simp only [splitOnChar]
    split
    · simp
    · split <;> simp

theorem splitOnChar_append (sep : Char) (xs ys : List Char) (h : sep ∉ xs) :
    splitOnChar sep (xs ++ sep :: ys) = xs :: splitOnChar sep ys := by
  induction xs with
  | nil => simp [splitOnChar]
  | cons c rest ih =>
    have hc : ¬c = sep := fun e => h (e ▸ List.mem_cons_self c rest)
    have hrest := ih (fun hm => h (List.mem_cons_of_mem c hm))
    simp only [List.cons_append, splitOnChar, hc, if_false, List.append_eq, hrest]

theorem splitOnChar_joinSep (sep : Char) (ss : List (List Char))
    (h : ∀ x ∈ ss, sep ∉ x) (hne : ss ≠ []) :
    splitOnChar sep (joinSep sep ss) = ss := by
  induction ss with
  | nil => exact absurd rfl hne
  | cons x t ih =>
    cases t with
    | nil =>
      show splitOnChar sep x = [x]
      exact splitOnChar_not_mem sep x (h x (List.mem_cons_self x []))
    | cons y t' =>
      show splitOnChar sep (x ++ sep :: joinSep sep (y :: t')) = _
      rw [splitOnChar_append sep x _ (h x (List.mem_cons_self x _)),
        ih (fun z hz => h z (List.mem_cons_of_mem x hz)) (by simp)]

theorem splitOnChar_mem_subset (sep : Char) (xs l : List Char)
    (hl : l ∈ splitOnChar sep xs) : ∀ c ∈ l, c ∈ xs := by
  induction xs generalizing l with
  | nil =>
    simp only [splitOnChar, List.mem_singleton] at hl
    subst hl
    intro c hc
    exact hc
  | cons x rest ih =>
    simp only [splitOnChar] at hl
    by_cases hx : x = sep
    · rw [if_pos hx] at hl
      rcases List.mem_cons.mp hl with h1 | h1
      · subst h1
        intro c hc
        exact absurd hc (List.not_mem_nil c)
      · exact fun c hc => List.mem_cons_of_mem x (ih l h1 c hc)
    · rw [if_neg hx] at hl
      rcases hs : splitOnChar sep rest with _ | ⟨s, ss⟩
      · exact absurd hs (splitOnChar_ne_nil sep rest)
      · rw [hs] at hl
        rcases List.mem_cons.mp hl with h1 | h1
        · subst h1
          intro c hc
          rcases List.mem_cons.mp hc with h2 | h2
          · exact h2 ▸ List.mem_cons_self x rest
          · exact List.mem_cons_of_mem x
              (ih s (hs ▸ List.mem_cons_self s ss) c h2)
        · exact fun c hc => List.mem_cons_of_mem x
            (ih l (hs ▸ List.mem_cons_of_mem s h1) c hc)

theorem splitOnChar_mem_not_mem (sep : Char) (xs l : List Char)
    (hl : l ∈ splitOnChar sep xs) : sep ∉ l := by
  induction xs generalizing l with
  | nil =>
    simp only [splitOnChar, List.mem_singleton] at hl
    subst hl
    exact List.not_mem_nil sep
  | cons x rest ih =>
    simp only [splitOnChar] at hl
    by_cases hx : x = sep
    · rw [if_pos hx] at hl
      rcases List.mem_cons.mp hl with h1 | h1
      · subst h1
        exact List.not_mem_nil sep
      · exact ih l h1
    · rw [if_neg hx] at hl
      rcases hs : splitOnChar sep rest with _ | ⟨s, ss⟩
      · exact absurd hs (splitOnChar_ne_nil sep rest)
      · rw [hs] at hl
        rcases List.mem_cons.mp hl with h1 | h1
        · subst h1
          intro hc
          rcases List.mem_cons.mp hc with h2 | h2
          · exact hx h2.symm
          · exact ih s (hs ▸ List.mem_cons_self s ss) h2
        · exact ih l (hs ▸ List.mem_cons_of_mem s h1)

theorem joinSep_mem (sep : Char) (ss : List (List Char)) (c : Char)
    (hc : c ∈ joinSep sep ss) : c = sep ∨ ∃ x ∈ ss, c ∈ x := by
  induction ss with
  | nil => exact absurd hc (List.not_mem_nil c)
  | cons x t ih =>
    cases t with
    | nil => exact Or.inr ⟨x, List.mem_cons_self x [], hc⟩
    | cons y t' =>
      rcases List.mem_append.mp hc with h1 | h1
      · exact Or.inr ⟨x, List.mem_cons_self x _, h1⟩
      · rcases List.mem_cons.mp h1 with h2 | h2
        · exact Or.inl h2
        · rcases ih h2 with h3 | ⟨z, hz, hcz⟩
          · exact Or.inl h3
          · exact Or.inr ⟨z, List.mem_cons_of_mem x hz, hcz⟩

/-- A key as the modelled grammar produces it: non-empty and made of key
characters. -/
def keyOK (k : String) : Bool :=
  !k.data.isEmpty && k.data.all isKeyChar

/-- A selector as the modelled grammar produces it: any key it carries is
non-empty and made of key characters. -/
def Selector.WF : Selector → Bool
  | .None => true
  | .CountAll => true
  | .Include k => keyOK k
  | .Exclude k => keyOK k
  | .Count k => keyOK k

/-- The modifier character a selector's rendering starts with, if any. -/
def modChar : Selector → Option Char
  | .Exclude _ => some '!'
  | .Count _ => some '&'
  | .CountAll => some '&'
  | _ => none

/-- The key characters a selector's rendering ends with, if any. -/
def keyChars : Selector → Option (List Char)
  | .Include k => some k.data
  | .Exclude k => some k.data
  | .Count k => some k.data
  | _ => none

theorem name_ok (ty : InputType) :
    ty.name.data ≠ [] ∧ ty.name.data.all isNameChar = true := by
  cases ty <;> exact ⟨by decide, by decide⟩

theorem serialize_data (v : Input) :
    v.serialize.data =
      (match modChar v.selector with
       | some c => [c]
       | none => []) ++
      (v.input.name.data ++
      (match keyChars v.selector with
       | some k => ':' :: k
       | none => [])) := by
  have hcolon : (":" : String).data = [':'] := rfl
  have hbang : ("!" : String).data = ['!'] := rfl
  have hamp : ("&" : String).data = ['&'] := rfl
  have hemp : ("" : String).data = [] := rfl
  cases v with
  | mk ty sel =>
    cases sel <;>
      simp [Input.serialize, Selector.prefixStr, Selector.type_, Selector.arg,
        SelectorType.name, modChar, keyChars, data_append, hcolon, hbang,
        hamp, hemp]

theorem parseInputBody_no_key (mod : Option Char) (nm : List Char)
    (hnm : nm ≠ []) (hall : nm.all isNameChar = true) :
    parseInputBody mod nm = some (mod, nm, none) := by
  have h := takeWhile_all_append isNameChar nm [] hall (by intro c hc; cases hc)
  rw [List.append_nil] at h
  simp [parseInputBody, h.1, h.2, hnm]

theorem parseInputBody_with_key (mod : Option Char) (nm k : List Char)
    (hnm : nm ≠ []) (hall : nm.all isNameChar = true)
    (hk : k ≠ []) (hkall : k.all isKeyChar = true) :
    parseInputBody mod (nm ++ ':' :: k) = some (mod, nm, some k) := by
  have h := takeWhile_all_append isNameChar nm (':' :: k) hall
    (by intro c hc; injection hc with hc; subst hc; decide)
  have hke : k.isEmpty = false := by
    cases k with
    | nil => exact absurd rfl hk
    | cons a b => rfl
  simp [parseInputBody, h.1, h.2, hnm, hke, hkall]

theorem keyOK_spec (k : String) (h : keyOK k = true) :
    k.data ≠ [] ∧ k.data.all isKeyChar = true := by
  unfold keyOK at h
  rw [Bool.and_eq_true, Bool.not_eq_true'] at h
  refine ⟨?_, h.2⟩
  intro e
  rw [e] at h
  exact absurd h.1 (by decide)

theorem parseInputCore_no_mod (c0 : Char) (rest : List Char)
    (h1 : c0 ≠ '!') (h2 : c0 ≠ '&') :
    parseInputCore (c0 :: rest) = parseInputBody none (c0 :: rest) := by
  simp only [parseInputCore]
  rw [if_neg]
  simp [h1, h2]

theorem parseInputCore_mod (c0 : Char) (rest : List Char)
    (h : (c0 = '!' || c0 = '&') = true) :
    parseInputCore (c0 :: rest) = parseInputBody (some c0) rest := by
  simp only [parseInputCore]
  rw [if_pos h]

theorem parseInputCore_no_mod_name (nm tail : List Char)
    (hnm : nm ≠ []) (hall : nm.all isNameChar = true) :
    parseInputCore (nm ++ tail) = parseInputBody none (nm ++ tail) := by
  cases hnd : nm with
  | nil => exact absurd hnd hnm
  | cons n0 ntl =>
    have hn0 : isNameChar n0 = true := by
      rw [hnd, List.all_cons, Bool.and_eq_true] at hall
      exact hall.1
    obtain ⟨hne1, hne2, -⟩ := nameChar_ne hn0
    rw [List.cons_append]
    exact parseInputCore_no_mod n0 (ntl ++ tail) hne1 hne2

theorem parseInputCore_canonical (v : Input) (h : v.selector.WF = true) :
    parseInputCore v.serialize.data =
      some (modChar v.selector, v.input.name.data, keyChars v.selector) := by
  obtain ⟨hnm, hall⟩ := name_ok v.input
  rw [serialize_data]
  cases hs : v.selector with
  | None =>
    simp only [modChar, keyChars, List.nil_append, List.append_nil]
    rw [show v.input.name.data = v.input.name.data ++ ([] : List Char) by
      rw [List.append_nil]]
    rw [parseInputCore_no_mod_name _ _ hnm hall, List.append_nil]
    exact parseInputBody_no_key none _ hnm hall
  | Include k =>
    rw [hs] at h
    obtain ⟨hk, hkall⟩ := keyOK_spec k h
    simp only [modChar, keyChars, List.nil_append]
    rw [parseInputCore_no_mod_name _ _ hnm hall]
    exact parseInputBody_with_key none _ _ hnm hall hk hkall
  | Exclude k =>
    rw [hs] at h
    obtain ⟨hk, hkall⟩ := keyOK_spec k h
    simp only [modChar, keyChars, List.cons_append, List.nil_append]
    rw [parseInputCore_mod '!' _ (by decide)]
    exact parseInputBody_with_key _ _ _ hnm hall hk hkall
  | Count k =>
    rw [hs] at h
    obtain ⟨hk, hkall⟩ := keyOK_spec k h
    simp only [modChar, keyChars, List.cons_append, List.nil_append]
    rw [parseInputCore_mod '&' _ (by decide)]
    exact parseInputBody_with_key _ _ _ hnm hall hk hkall
  | CountAll =>
    simp only [modChar, keyChars, List.cons_append, List.nil_append,
      List.append_nil]
    rw [parseInputCore_mod '&' _ (by decide)]
    exact parseInputBody_no_key _ _ hnm hall

theorem deserialize_mkInputPair (orig : List Char) (mod : Option Char)
    (nm : List Char) (key : Option (List Char)) :
    Input.deserialize (mkInputPair orig mod nm key) =
      match InputType.from_name (String.mk nm) with
      | none => .err (.UnknownInput (String.mk nm))
      | some ty =>
        match Selector.from_parts (mod.map fun c => String.mk [c])
            (key.map String.mk) (String.mk orig) with
        | .error e => .err e
        | .ok sel => .ok ⟨ty, sel⟩ := by
  cases mod <;> cases key <;>
    simp [Input.deserialize, mkInputPair, nextIfRule, Pair.as_rule,
      Pair.as_str, Pair.into_inner]

theorem deserialize_canonical (orig : List Char) (v : Input)
    (_h : v.selector.WF = true) :
    Input.deserialize (mkInputPair orig (modChar v.selector)
      v.input.name.data (keyChars v.selector)) = .ok v := by
  rw [deserialize_mkInputPair, mk_data, inputType_from_name_name]
  have hbang : String.mk ['!'] = "!" := rfl
  have hamp : String.mk ['&'] = "&" := rfl
  cases hs : v.selector with
  | None =>
    simp only [modChar, keyChars, Option.map_none']
    rw [show Selector.from_parts none none (String.mk orig) =
        Except.ok Selector.None from rfl, ← hs]
  | Include k =>
    simp only [modChar, keyChars, Option.map_none', Option.map_some', mk_data]
    rw [show Selector.from_parts none (some k) (String.mk orig) =
        Except.ok (Selector.Include k) from rfl, ← hs]
  | Exclude k =>
    simp only [modChar, keyChars, Option.map_some', mk_data, hbang]
    rw [show Selector.from_parts (some "!") (some k) (String.mk orig) =
        Except.ok (Selector.Exclude k) from rfl, ← hs]
  | Count k =>
    simp only [modChar, keyChars, Option.map_some', mk_data, hamp]
    rw [show Selector.from_parts (some "&") (some k) (String.mk orig) =
        Except.ok (Selector.Count k) from rfl, ← hs]
  | CountAll =>
    simp only [modChar, keyChars, Option.map_some', Option.map_none', hamp]
    rw [show Selector.from_parts (some "&") none (String.mk orig) =
        Except.ok Selector.CountAll from rfl, ← hs]

/-- Round trip for one input token: serializing a grammar-producible
`Input` and reparsing yields the same value. -/
theorem deserializeInputText_serialize (v : Input) (h : v.selector.WF = true) :
    deserializeInputText v.serialize = some v := by
  unfold deserializeInputText parseInputText
  rw [parseInputCore_canonical v h]
  simp only [Option.map_some']
  rw [deserialize_canonical _ v h]

theorem parseInputBody_sound (mod : Option Char) (cs : List Char)
    (m' : Option Char) (nm : List Char) (key : Option (List Char))
    (h : parseInputBody mod cs = some (m', nm, key)) :
    ∀ k, key = some k → k ≠ [] ∧ k.all isKeyChar = true := by
  unfold parseInputBody at h
  simp only [] at h
  by_cases he : (List.takeWhile isNameChar cs).isEmpty = true
  · rw [if_pos he] at h
    exact Option.noConfusion h
  · rw [if_neg he] at h
    split at h
    · simp only [Option.some.injEq, Prod.mk.injEq] at h
      intro k hk
      rw [← h.2.2] at hk
      exact Option.noConfusion hk
    · split_ifs at h with hcond
      · simp only [Option.some.injEq, Prod.mk.injEq] at h
        rw [Bool.and_eq_true, Bool.not_eq_true'] at hcond
        intro k hk
        rw [← h.2.2] at hk
        injection hk with hk
        subst hk
        refine ⟨?_, hcond.2⟩
        intro e
        rw [e] at hcond
        exact absurd hcond.1 (by decide)
    · exact Option.noConfusion h

theorem parseInputCore_sound (cs : List Char) (mod : Option Char)
    (nm : List Char) (key : Option (List Char))
    (h : parseInputCore cs = some (mod, nm, key)) :
    ∀ k, key = some k → k ≠ [] ∧ k.all isKeyChar = true := by
  unfold parseInputCore at h
  split at h
  · split_ifs at h with hc
    · exact parseInputBody_sound _ _ _ _ _ h
    · exact parseInputBody_sound _ _ _ _ _ h
  · exact parseInputBody_sound _ _ _ _ _ h

theorem keyOK_intro (l : List Char) (h1 : l ≠ []) (h2 : l.all isKeyChar = true) :
    keyOK (String.mk l) = true := by
  unfold keyOK
  rw [Bool.and_eq_true, Bool.not_eq_true']
  refine ⟨?_, h2⟩
  cases l with
  | nil => exact absurd rfl h1
  | cons a b => rfl

theorem WF_of_arg (sel : Selector) (key : Option (List Char))
    (harg : sel.arg = key.map String.mk)
    (hkey : ∀ k, key = some k → k ≠ [] ∧ k.all isKeyChar = true) :
    sel.WF = true := by
  cases sel with
  | None => rfl
  | CountAll => rfl
  | Include k =>
    cases key with
    | none => exact absurd harg (by simp [Selector.arg])
    | some l =>
      have hk : k = String.mk l := by simpa [Selector.arg] using harg
      subst hk
      obtain ⟨h1, h2⟩ := hkey l rfl
      exact keyOK_intro l h1 h2
  | Exclude k =>
    cases key with
    | none => exact absurd harg (by simp [Selector.arg])
    | some l =>
      have hk : k = String.mk l := by simpa [Selector.arg] using harg
      subst hk
      obtain ⟨h1, h2⟩ := hkey l rfl
      exact keyOK_intro l h1 h2
  | Count k =>
    cases key with
    | none => exact absurd harg (by simp [Selector.arg])
    | some l =>
      have hk : k = String.mk l := by simpa [Selector.arg] using harg
      subst hk
      obtain ⟨h1, h2⟩ := hkey l rfl
      exact keyOK_intro l h1 h2

theorem deserialize_parsed_WF (orig : List Char) (mod : Option Char)
    (nm : List Char) (key : Option (List Char)) (v : Input)
    (hkey : ∀ k, key = some k → k ≠ [] ∧ k.all isKeyChar = true)
    (hd : Input.deserialize (mkInputPair orig mod nm key) = .ok v) :
    v.selector.WF = true := by
  rw [deserialize_mkInputPair] at hd
  cases hfn : InputType.from_name (String.mk nm) with
  | none =>
    rw [hfn] at hd
    exact RResult.noConfusion hd
  | some ty =>
    rw [hfn] at hd
    cases hfp : Selector.from_parts (mod.map fun c => String.mk [c])
        (key.map String.mk) (String.mk orig) with
    | error e =>
      rw [hfp] at hd
      exact RResult.noConfusion hd
    | ok sel =>
      rw [hfp] at hd
      injection hd with hd
      have harg := from_parts_arg _ _ _ _ hfp
      rw [← hd]
      exact WF_of_arg sel key harg hkey

theorem deserializeInputText_WF (s : String) (v : Input)
    (h : deserializeInputText s = some v) : v.selector.WF = true := by
  unfold deserializeInputText parseInputText at h
  cases hp : parseInputCore s.data with
  | none =>
    rw [hp] at h
    exact Option.noConfusion h
  | some t =>
    obtain ⟨mod, nm, key⟩ := t
    rw [hp] at h
    simp only [Option.map_some'] at h
    cases hd : Input.deserialize (mkInputPair s.data mod nm key) with
    | ok w =>
      rw [hd] at h
      injection h with h
      rw [← h]
      exact deserialize_parsed_WF s.data mod nm key w
        (parseInputCore_sound s.data mod nm key hp) hd
    | err e =>
      rw [hd] at h
      exact Option.noConfusion h
    | panicked =>
      rw [hd] at h
      exact Option.noConfusion h

theorem parseSelectorParts_other (c : Char) (rest : List Char)
    (h1 : c ≠ '!') (h2 : c ≠ '&') :
    parseSelectorParts (c :: rest) = (none, c :: rest) := by
  unfold parseSelectorParts
  split
  · rename_i heq
    injection heq with hc
    exact absurd hc h1
  · rename_i heq
    injection heq with hc
    exact absurd hc h2
  · rfl

theorem parseSelectorKey_cons (c : Char) (rest : List Char)
    (hall : (c :: rest).all isKeyChar = true) :
    parseSelectorKey (c :: rest) = some (some (String.mk (c :: rest))) := by
  simp [parseSelectorKey, hall]

theorem parseSelectorKey_sound (cs : List Char) (k : Option String)
    (h : parseSelectorKey cs = some k) :
    k = none ∨ ∃ l, k = some (String.mk l) ∧ l ≠ [] ∧ l.all isKeyChar = true := by
  unfold parseSelectorKey at h
  split at h
  · injection h with h
    exact Or.inl h.symm
  · rename_i hne
    split_ifs at h with hall
    injection h with h
    refine Or.inr ⟨cs, h.symm, ?_, hall⟩
    intro e
    exact hne e

theorem deserializeSelectorText_WF (s : String) (v : Selector)
    (h : deserializeSelectorText s = some v) : v.WF = true := by
  unfold deserializeSelectorText at h
  simp only [] at h
  split at h
  · exact Option.noConfusion h
  · rename_i k hk
    split at h
    · rename_i w hfp
      injection h with h
      subst h
      have harg := from_parts_arg _ _ _ _ hfp
      rcases parseSelectorKey_sound _ _ hk with hnone | ⟨l, hsome, hl1, hl2⟩
      · subst hnone
        exact WF_of_arg w none harg (fun k2 hk2 => Option.noConfusion hk2)
      · subst hsome
        refine WF_of_arg w (some l) harg ?_
        intro k2 hk2
        injection hk2 with hk2
        subst hk2
        exact ⟨hl1, hl2⟩
    · exact Option.noConfusion h

theorem keyOK_head_not_mod (k : String) (c : Char) (tl : List Char)
    (hw : keyOK k = true) (hd : k.data = c :: tl) : c ≠ '!' ∧ c ≠ '&' := by
  obtain ⟨-, hall⟩ := keyOK_spec k hw
  rw [hd, List.all_cons, Bool.and_eq_true] at hall
  obtain ⟨-, h2, h3, -⟩ := keyChar_ne hall.1
  exact ⟨h2, h3⟩

theorem deserializeSelectorText_render (v : Selector) (h : v.WF = true) :
    deserializeSelectorText (selectorRender v) = some v := by
  cases v with
  | None => rfl
  | CountAll => rfl
  | Include k =>
    have hr : selectorRender (.Include k) = k := by
      show "" ++ "" ++ k = k
      rw [nil_append, nil_append]
    rw [hr]
    obtain ⟨hne, hall⟩ := keyOK_spec k h
    unfold deserializeSelectorText
    simp only []
    cases hd : k.data with
    | nil => exact absurd hd hne
    | cons c tl =>
      obtain ⟨h1, h2⟩ := keyOK_head_not_mod k c tl h hd
      rw [parseSelectorParts_other c tl h1 h2]
      rw [parseSelectorKey_cons c tl (hd ▸ hall)]
      rw [← hd, mk_data]
      rfl
  | Exclude k =>
    have hr : (selectorRender (.Exclude k)).data = '!' :: k.data := by
      show ("!" ++ "" ++ k).data = _
      rfl
    obtain ⟨hne, hall⟩ := keyOK_spec k h
    unfold deserializeSelectorText
    simp only [hr]
    show (match parseSelectorKey k.data with
      | none => none
      | some key =>
        match Selector.from_parts (some "!") key (selectorRender (.Exclude k)) with
        | .ok v => some v
        | .error _ => none) = some (Selector.Exclude k)
    cases hd : k.data with
    | nil => exact absurd hd hne
    | cons c tl =>
      rw [parseSelectorKey_cons c tl (hd ▸ hall), ← hd, mk_data]
      rfl
  | Count k =>
    have hr : (selectorRender (.Count k)).data = '&' :: k.data := by
      show ("&" ++ "" ++ k).data = _
      rfl
    obtain ⟨hne, hall⟩ := keyOK_spec k h
    unfold deserializeSelectorText
    simp only [hr]
    show (match parseSelectorKey k.data with
      | none => none
      | some key =>
        match Selector.from_parts (some "&") key (selectorRender (.Count k)) with
        | .ok v => some v
        | .error _ => none) = some (Selector.Count k)
    cases hd : k.data with
    | nil => exact absurd hd hne
    | cons c tl =>
      rw [parseSelectorKey_cons c tl (hd ▸ hall), ← hd, mk_data]
      rfl

theorem name_mem_ne (ty : InputType) (c : Char) (hc : c ∈ ty.name.data) :
    c ≠ '|' ∧ c ≠ ' ' ∧ c ≠ '"' := by
  have hall := (name_ok ty).2
  have hnc : isNameChar c = true := by
    rw [List.all_eq_true] at hall
    exact hall c hc
  obtain ⟨-, -, -, h4, h5, h6⟩ := nameChar_ne hnc
  exact ⟨h4, h5, h6⟩

theorem key_mem_ne (k : String) (hw : keyOK k = true) (c : Char)
    (hc : c ∈ k.data) : c ≠ '|' ∧ c ≠ ' ' ∧ c ≠ '"' := by
  obtain ⟨-, hall⟩ := keyOK_spec k hw
  have hkc : isKeyChar c = true := by
    rw [List.all_eq_true] at hall
    exact hall c hc
  obtain ⟨h1, -, -, h4, h5⟩ := keyChar_ne hkc
  exact ⟨h1, h4, h5⟩

theorem serialize_mem_chars (v : Input) (h : v.selector.WF = true) (c : Char)
    (hc : c ∈ v.serialize.data) : c ≠ '|' ∧ c ≠ ' ' ∧ c ≠ '"' := by
  rw [serialize_data] at hc
  cases hs : v.selector <;> rw [hs] at hc <;>
    simp only [modChar, keyChars, List.nil_append, List.append_nil,
      List.mem_append, List.mem_cons, List.mem_singleton,
      List.not_mem_nil, or_false, false_or] at hc
  case None => exact name_mem_ne v.input c hc
  case CountAll =>
    rcases hc with hc | hc
    · subst hc
      exact ⟨by decide, by decide, by decide⟩
    · exact name_mem_ne v.input c hc
  case Include k =>
    rw [hs] at h
    rcases hc with hc | hc | hc
    · exact name_mem_ne v.input c hc
    · subst hc
      exact ⟨by decide, by decide, by decide⟩
    · exact key_mem_ne k h c hc
  case Exclude k =>
    rw [hs] at h
    rcases hc with hc | hc | hc | hc
    · subst hc
      exact ⟨by decide, by decide, by decide⟩
    · exact name_mem_ne v.input c hc
    · subst hc
      exact ⟨by decide, by decide, by decide⟩
    · exact key_mem_ne k h c hc
  case Count k =>
    rw [hs] at h
    rcases hc with hc | hc | hc | hc
    · subst hc
      exact ⟨by decide, by decide, by decide⟩
    · exact name_mem_ne v.input c hc
    · subst hc
      exact ⟨by decide, by decide, by decide⟩
    · exact key_mem_ne k h c hc

theorem foldl_sep_assoc (t : List String) (a b : String) :
    t.foldl (fun acc s => acc ++ "|" ++ s) (a ++ b) =
      a ++ t.foldl (fun acc s => acc ++ "|" ++ s) b := by
  induction t generalizing b with
  | nil => rfl
  | cons s t ih =>
    show t.foldl _ (a ++ b ++ "|" ++ s) = a ++ (s :: t).foldl _ b
    have he : a ++ b ++ "|" ++ s = a ++ (b ++ "|" ++ s) := by
      simp [str_append_assoc]
    rw [he]
    exact ih (b ++ "|" ++ s)

theorem joinPipe_cons_cons (x y : String) (t : List String) :
    joinPipe (x :: y :: t) = x ++ "|" ++ joinPipe (y :: t) := by
  show (y :: t).foldl (fun acc s => acc ++ "|" ++ s) x = _
  show t.foldl (fun acc s => acc ++ "|" ++ s) (x ++ "|" ++ y) = _
  exact foldl_sep_assoc t (x ++ "|") y

theorem joinPipe_data (ss : List String) :
    (joinPipe ss).data = joinSep '|' (ss.map String.data) := by
  induction ss with
  | nil => rfl
  | cons x t ih =>
    cases t with
    | nil => rfl
    | cons y t' =>
      have hp : ("|" : String).data = ['|'] := rfl
      rw [joinPipe_cons_cons, data_append, data_append, ih]
      simp [joinSep, hp, List.append_assoc]

theorem serializeInputs_data (l : List Input) :
    (serializeInputs l).data = joinSep '|' (l.map fun v => v.serialize.data) := by
  rw [serializeInputs_eq_joinPipe, joinPipe_data, List.map_map]
  rfl

theorem parseSegs_canonical (l : List Input)
    (h : ∀ v ∈ l, v.selector.WF = true) :
    ∃ ps, parseSegs (l.map fun v => v.serialize.data) = some ps ∧
      deserializeInputList ps = .ok l := by
  induction l with
  | nil => exact ⟨[], rfl, rfl⟩
  | cons v t ih =>
    obtain ⟨ps, hps, hds⟩ := ih (fun w hw => h w (List.mem_cons_of_mem v hw))
    have hv := h v (List.mem_cons_self v t)
    refine ⟨mkInputPair v.serialize.data (modChar v.selector)
      v.input.name.data (keyChars v.selector) :: ps, ?_, ?_⟩
    · show parseSegs (v.serialize.data :: t.map _) = _
      unfold parseSegs
      rw [parseInputCore_canonical v hv, hps]
    · unfold deserializeInputList
      rw [deserialize_canonical _ v hv, hds]

theorem splitOnChar_serializeInputs (l : List Input) (hne : l ≠ [])
    (h : ∀ v ∈ l, v.selector.WF = true) :
    splitOnChar '|' (serializeInputs l).data = l.map fun v => v.serialize.data := by
  rw [serializeInputs_data]
  refine splitOnChar_joinSep '|' _ ?_ ?_
  · intro x hx
    obtain ⟨v, hv, rfl⟩ := List.mem_map.mp hx
    intro hmem
    exact (serialize_mem_chars v (h v hv) '|' hmem).1 rfl
  · intro e
    cases l with
    | nil => exact hne rfl
    | cons a b => exact List.noConfusion e

/-- Round trip for a `|`-separated input list: serializing a
grammar-producible list and reparsing yields the same list. -/
theorem deserializeInputsText_serialize (l : List Input) (hne : l ≠ [])
    (h : ∀ v ∈ l, v.selector.WF = true) :
    deserializeInputsText (serializeInputs l) = some l := by
  obtain ⟨ps, hps, hds⟩ := parseSegs_canonical l h
  unfold deserializeInputsText parseInputsText
  rw [splitOnChar_serializeInputs l hne h, hps]
  simp only [Option.map_some']
  have hd : deserializeInputs (Pair.mk Rule.inputs (serializeInputs l) ps) =
      RResult.ok l := by
    simp [deserializeInputs, Pair.as_rule, Pair.into_inner, hds]
  rw [hd]

theorem parseSegs_deserialize_WF (segs : List (List Char)) (ps : List Pair)
    (l : List Input) (hp : parseSegs segs = some ps)
    (hd : deserializeInputList ps = .ok l) :
    l.length = segs.length ∧ ∀ v ∈ l, v.selector.WF = true := by
  induction segs generalizing ps l with
  | nil =>
    injection hp with hp
    subst hp
    injection hd with hd
    subst hd
    exact ⟨rfl, fun v hv => absurd hv (List.not_mem_nil v)⟩
  | cons seg t ih =>
    unfold parseSegs at hp
    cases hpc : parseInputCore seg with
    | none =>
      rw [hpc] at hp
      exact Option.noConfusion hp
    | some tr =>
      obtain ⟨mod, nm, key⟩ := tr
      rw [hpc] at hp
      cases hrest : parseSegs t with
      | none =>
        rw [hrest] at hp
        exact Option.noConfusion hp
      | some ps' =>
        rw [hrest] at hp
        injection hp with hp
        subst hp
        unfold deserializeInputList at hd
        cases hdv : Input.deserialize (mkInputPair seg mod nm key) with
        | ok v =>
          rw [hdv] at hd
          cases hdl : deserializeInputList ps' with
          | ok vs =>
            rw [hdl] at hd
            injection hd with hd
            subst hd
            obtain ⟨hlen, hwf⟩ := ih ps' vs hrest hdl
            refine ⟨by simp [hlen], ?_⟩
            intro w hw
            rcases List.mem_cons.mp hw with hw | hw
            · subst hw
              exact deserialize_parsed_WF seg mod nm key w
                (parseInputCore_sound seg mod nm key hpc) hdv
            · exact hwf w hw
          | err e =>
            rw [hdl] at hd
            exact RResult.noConfusion hd
          | panicked =>
            rw [hdl] at hd
            exact RResult.noConfusion hd
        | err e =>
          rw [hdv] at hd
          exact RResult.noConfusion hd
        | panicked =>
          rw [hdv] at hd
          exact RResult.noConfusion hd

theorem deserializeInputsText_WF (s : String) (l : List Input)
    (h : deserializeInputsText s = some l) :
    l ≠ [] ∧ ∀ v ∈ l, v.selector.WF = true := by
  unfold deserializeInputsText parseInputsText at h
  cases hps : parseSegs (splitOnChar '|' s.data) with
  | none =>
    rw [hps] at h
    exact Option.noConfusion h
  | some ps =>
    rw [hps] at h
    simp only [Option.map_some'] at h
    cases hd : deserializeInputs (Pair.mk Rule.inputs s ps) with
    | ok l' =>
      rw [hd] at h
      injection h with h
      subst h
      have hd' : deserializeInputList ps = .ok l' := by
        simpa [deserializeInputs, Pair.as_rule, Pair.into_inner] using hd
      obtain ⟨hlen, hwf⟩ := parseSegs_deserialize_WF _ _ _ hps hd'
      refine ⟨?_, hwf⟩
      intro e
      subst e
      exact splitOnChar_ne_nil '|' s.data
        (List.length_eq_zero.mp hlen.symm)
    | err e =>
      rw [hd] at h
      exact Option.noConfusion h
    | panicked =>
      rw [hd] at h
      exact Option.noConfusion h

/-- A rule aggregate as the modelled grammar produces it: a non-empty
input list of grammar-producible inputs, an operator text free of double
quotes, and a non-empty action list whose texts are free of commas and
double quotes. -/
def SecRule.WF (r : SecRule) : Prop :=
  r.inputs ≠ [] ∧ (∀ v ∈ r.inputs, v.selector.WF = true) ∧
  '"' ∉ r.op.text.data ∧
  r.actions ≠ [] ∧ (∀ a ∈ r.actions, ',' ∉ a.text.data ∧ '"' ∉ a.text.data)

theorem secRule_serialize_data (r : SecRule) :
    r.serialize.data =
      "SecRule ".data ++ ((serializeInputs r.inputs).data ++
        ([' ', '"'] ++ (r.op.text.data ++
        (['"', ' ', '"'] ++
          (joinSep ',' (r.actions.map fun a => a.text.data) ++ ['"']))))) := by
  have h1 : (" \"" : String).data = [' ', '"'] := rfl
  have h2 : ("\" \"" : String).data = ['"', ' ', '"'] := rfl
  have h3 : ("\"" : String).data = ['"'] := rfl
  show ("SecRule " ++ serializeInputs r.inputs ++ " \"" ++ r.op.text ++
    "\" \"" ++ String.mk (joinSep ',' (r.actions.map fun a => a.text.data)) ++
    "\"").data = _
  simp only [data_append, h1, h2, h3, List.append_assoc]

theorem all_not_eq_of_mem_ne (l : List Char) (c0 : Char)
    (h : ∀ c ∈ l, c ≠ c0) : l.all (fun c => !(c = c0)) = true := by
  rw [List.all_eq_true]
  intro c hc
  simpa using h c hc

theorem serialize_mem_chars_list (l : List Input)
    (h : ∀ v ∈ l, v.selector.WF = true) (c : Char)
    (hc : c ∈ (serializeInputs l).data) : c ≠ ' ' ∧ c ≠ '"' := by
  rw [serializeInputs_data] at hc
  rcases joinSep_mem '|' _ c hc with h1 | ⟨x, hx, hcx⟩
  · subst h1
    exact ⟨by decide, by decide⟩
  · obtain ⟨v, hv, rfl⟩ := List.mem_map.mp hx
    exact ⟨(serialize_mem_chars v (h v hv) c hcx).2.1,
      (serialize_mem_chars v (h v hv) c hcx).2.2⟩

theorem parseSecRuleCore_canonical (r : SecRule) (hWF : r.WF) :
    parseSecRuleCore r.serialize.data =
      some ((serializeInputs r.inputs).data, r.op.text.data,
        joinSep ',' (r.actions.map fun a => a.text.data)) := by
  obtain ⟨hne, hwf, hop, hane, hact⟩ := hWF
  have hsr : "SecRule ".data = ['S', 'e', 'c', 'R', 'u', 'l', 'e', ' '] := rfl
  rw [secRule_serialize_data, hsr]
  simp only [List.cons_append, List.nil_append]
  have hspan1 := takeWhile_all_append (fun c => !(c = ' '))
    (serializeInputs r.inputs).data
    ([' ', '"'] ++ (r.op.text.data ++ (['"', ' ', '"'] ++
      (joinSep ',' (r.actions.map fun a => a.text.data) ++ ['"']))))
    (all_not_eq_of_mem_ne _ ' '
      (fun c hc => (serialize_mem_chars_list r.inputs hwf c hc).1))
    (by intro c hc; injection hc with hc; subst hc; rfl)
  have hspan2 := takeWhile_all_append (fun c => !(c = '"'))
    r.op.text.data
    (['"', ' ', '"'] ++ (joinSep ',' (r.actions.map fun a => a.text.data) ++ ['"']))
    (all_not_eq_of_mem_ne _ '"' (fun c hc he => hop (he ▸ hc)))
    (by intro c hc; injection hc with hc; subst hc; rfl)
  have hacts : ∀ c ∈ joinSep ',' (r.actions.map fun a => a.text.data), c ≠ '"' := by
    intro c hc
    rcases joinSep_mem ',' _ c hc with h | ⟨x, hx, hcx⟩
    · subst h
      decide
    · obtain ⟨a, ha, rfl⟩ := List.mem_map.mp hx
      intro he
      exact (hact a ha).2 (he ▸ hcx)
  have hspan3 := takeWhile_all_append (fun c => !(c = '"'))
    (joinSep ',' (r.actions.map fun a => a.text.data)) ['"']
    (all_not_eq_of_mem_ne _ '"' hacts)
    (by intro c hc; injection hc with hc; subst hc; rfl)
  simp only [List.cons_append, List.nil_append] at hspan1 hspan2 hspan3
  unfold parseSecRuleCore
  simp only []
  rw [hspan1.1, hspan1.2]
  simp only []
  rw [hspan2.1, hspan2.2]
  simp only []
  rw [hspan3.1, hspan3.2]
  rfl

theorem parseInputsText_serialize (l : List Input) (hne : l ≠ [])
    (h : ∀ v ∈ l, v.selector.WF = true) :
    ∃ ps, parseInputsText (serializeInputs l) =
        some (Pair.mk Rule.inputs (serializeInputs l) ps) ∧
      deserializeInputList ps = .ok l := by
  obtain ⟨ps, hps, hds⟩ := parseSegs_canonical l h
  refine ⟨ps, ?_, hds⟩
  unfold parseInputsText
  rw [splitOnChar_serializeInputs l hne h, hps]
  rfl

theorem deserializeActions_go_actions (l : List Action) :
    deserializeActions.go (l.map fun a => Pair.mk Rule.action a.text []) =
      .ok l := by
  induction l with
  | nil => rfl
  | cons a t ih =>
    show deserializeActions.go (Pair.mk Rule.action a.text [] :: _) = _
    unfold deserializeActions.go
    rw [show Action.deserialize (Pair.mk Rule.action a.text []) =
      .ok a from rfl, ih]

theorem deserializeActions_go_segs (ss : List (List Char)) :
    deserializeActions.go
        (ss.map fun seg => Pair.mk Rule.action (String.mk seg) []) =
      .ok (ss.map fun seg => (⟨String.mk seg⟩ : Action)) := by
  induction ss with
  | nil => rfl
  | cons seg t ih =>
    show deserializeActions.go (Pair.mk Rule.action (String.mk seg) [] :: _) = _
    unfold deserializeActions.go
    rw [show Action.deserialize (Pair.mk Rule.action (String.mk seg) []) =
      .ok ⟨String.mk seg⟩ from rfl, ih]
    rfl

/-- Round trip for a directive: serializing a grammar-producible rule and
reparsing yields the same aggregate. -/
theorem deserializeSecRuleText_serialize (r : SecRule) (h : r.WF) :
    deserializeSecRuleText r.serialize = some r := by
  obtain ⟨hne, hwf, hop, hane, hact⟩ := h
  unfold deserializeSecRuleText parseSecRuleText
  rw [parseSecRuleCore_canonical r ⟨hne, hwf, hop, hane, hact⟩]
  simp only []
  rw [show String.mk (serializeInputs r.inputs).data = serializeInputs r.inputs
    from rfl]
  obtain ⟨ps, hps, hds⟩ := parseInputsText_serialize r.inputs hne hwf
  rw [hps]
  simp only []
  have hchildren :
      splitOnChar ',' (joinSep ',' (r.actions.map fun a => a.text.data)) =
        r.actions.map fun a => a.text.data := by
    refine splitOnChar_joinSep ',' _ ?_ ?_
    · intro x hx
      obtain ⟨a, ha, rfl⟩ := List.mem_map.mp hx
      exact (hact a ha).1
    · intro e
      cases hA : r.actions with
      | nil => exact hane hA
      | cons a t =>
        rw [hA, List.map_cons] at e
        exact List.noConfusion e
  have hsd : SecRule.deserialize (Pair.mk Rule.sec_rule r.serialize
      [Pair.mk Rule.inputs (serializeInputs r.inputs) ps,
       Pair.mk Rule.operator (String.mk r.op.text.data) [],
       Pair.mk Rule.actions
         (String.mk (joinSep ',' (r.actions.map fun a => a.text.data)))
         ((splitOnChar ',' (joinSep ','
             (r.actions.map fun a => a.text.data))).map fun seg =>
           Pair.mk Rule.action (String.mk seg) [])]) = .ok r := by
    rw [hchildren]
    unfold SecRule.deserialize
    simp only [Pair.as_rule, Pair.into_inner, ne_eq, not_true_eq_false,
      if_false, reduceCtorEq, ite_false]
    rw [show deserializeInputs (Pair.mk Rule.inputs (serializeInputs r.inputs)
      ps) = deserializeInputList ps from by
        simp [deserializeInputs, Pair.as_rule, Pair.into_inner]]
    rw [hds]
    rw [show Operator.deserialize (Pair.mk Rule.operator
      (String.mk r.op.text.data) []) = .ok r.op from rfl]
    rw [show deserializeActions (Pair.mk Rule.actions
        (String.mk (joinSep ',' (r.actions.map fun a => a.text.data)))
        ((r.actions.map fun a => a.text.data).map fun seg =>
          Pair.mk Rule.action (String.mk seg) [])) =
        deserializeActions.go ((r.actions.map fun a => a.text.data).map
          fun seg => Pair.mk Rule.action (String.mk seg) []) from by
      simp [deserializeActions, Pair.as_rule, Pair.into_inner]]
    rw [show (r.actions.map fun a => a.text.data).map (fun seg =>
        Pair.mk Rule.action (String.mk seg) []) =
        r.actions.map fun a => Pair.mk Rule.action a.text [] from by
      rw [List.map_map]
      rfl]
    rw [deserializeActions_go_actions]
  rw [hsd]

theorem parseSecRuleCore_sound (cs i o a : List Char)
    (h : parseSecRuleCore cs = some (i, o, a)) :
    (∀ c ∈ o, c ≠ '"') ∧ (∀ c ∈ a, c ≠ '"') := by
  unfold parseSecRuleCore at h
  split at h
  · simp only [] at h
    split at h
    · split at h
      · split at h
        · simp only [Option.some.injEq, Prod.mk.injEq] at h
          obtain ⟨-, ho, ha⟩ := h
          constructor
          · intro c hc
            rw [← ho] at hc
            have := List.mem_takeWhile_imp hc
            simpa using this
          · intro c hc
            rw [← ha] at hc
            have := List.mem_takeWhile_imp hc
            simpa using this
        · exact Option.noConfusion h
      · exact Option.noConfusion h
    · exact Option.noConfusion h
  · exact Option.noConfusion h

theorem deserializeInputs_pair_WF (s : String) (ip : Pair) (l : List Input)
    (hip : parseInputsText s = some ip)
    (hd : deserializeInputs ip = .ok l) :
    l ≠ [] ∧ ∀ v ∈ l, v.selector.WF = true := by
  unfold parseInputsText at hip
  cases hps : parseSegs (splitOnChar '|' s.data) with
  | none =>
    rw [hps] at hip
    exact Option.noConfusion hip
  | some ps =>
    rw [hps] at hip
    simp only [Option.map_some'] at hip
    injection hip with hip
    rw [← hip] at hd
    have hd' : deserializeInputList ps = .ok l := by
      simpa [deserializeInputs, Pair.as_rule, Pair.into_inner] using hd
    obtain ⟨hlen, hwf⟩ := parseSegs_deserialize_WF _ _ _ hps hd'
    refine ⟨?_, hwf⟩
    intro e
    subst e
    exact splitOnChar_ne_nil '|' s.data (List.length_eq_zero.mp hlen.symm)

theorem deserializeSecRuleText_WF (s : String) (r : SecRule)
    (h : deserializeSecRuleText s = some r) : r.WF := by
  unfold deserializeSecRuleText parseSecRuleText at h
  cases hc : parseSecRuleCore s.data with
  | none =>
    rw [hc] at h
    exact Option.noConfusion h
  | some t =>
    obtain ⟨i, o, a⟩ := t
    rw [hc] at h
    simp only [] at h
    obtain ⟨ho, ha⟩ := parseSecRuleCore_sound s.data i o a hc
    cases hip : parseInputsText (String.mk i) with
    | none =>
      rw [hip] at h
      exact Option.noConfusion h
    | some ip =>
      rw [hip] at h
      simp only [] at h
      cases hsd : SecRule.deserialize (Pair.mk Rule.sec_rule s
          [ip, Pair.mk Rule.operator (String.mk o) [],
           Pair.mk Rule.actions (String.mk a)
             ((splitOnChar ',' a).map fun seg =>
               Pair.mk Rule.action (String.mk seg) [])]) with
      | err e =>
        rw [hsd] at h
        exact Option.noConfusion h
      | panicked =>
        rw [hsd] at h
        exact Option.noConfusion h
      | ok r' =>
        rw [hsd] at h
        injection h with h
        subst h
        unfold SecRule.deserialize at hsd
        simp only [Pair.as_rule, Pair.into_inner, ne_eq, not_true_eq_false,
          if_false, reduceCtorEq, ite_false] at hsd
        cases hdi : deserializeInputs ip with
        | err e =>
          rw [hdi] at hsd
          exact RResult.noConfusion hsd
        | panicked =>
          rw [hdi] at hsd
          exact RResult.noConfusion hsd
        | ok inputs =>
          rw [hdi] at hsd
          rw [show Operator.deserialize (Pair.mk Rule.operator (String.mk o)
            []) = .ok ⟨String.mk o⟩ from rfl] at hsd
          rw [show deserializeActions (Pair.mk Rule.actions (String.mk a)
              ((splitOnChar ',' a).map fun seg =>
                Pair.mk Rule.action (String.mk seg) [])) =
              .ok ((splitOnChar ',' a).map fun seg =>
                (⟨String.mk seg⟩ : Action)) from by
            simp only [deserializeActions, Pair.as_rule, Pair.into_inner,
              ne_eq, not_true_eq_false, if_false, reduceCtorEq, ite_false]
            exact deserializeActions_go_segs _] at hsd
          injection hsd with hsd
          rw [← hsd]
          refine ⟨(deserializeInputs_pair_WF _ _ _ hip hdi).1,
            (deserializeInputs_pair_WF _ _ _ hip hdi).2, ?_, ?_, ?_⟩
          · show '"' ∉ (String.mk o).data
            intro hm
            exact ho '"' hm rfl
          · intro e
            have := splitOnChar_ne_nil ',' a
            cases hsp : splitOnChar ',' a with
            | nil => exact this hsp
            | cons x xs =>
              rw [hsp, List.map_cons] at e
              exact List.noConfusion e
          · intro act hact
            obtain ⟨seg, hseg, rfl⟩ := List.mem_map.mp hact
            constructor
            · show ',' ∉ seg
              exact splitOnChar_mem_not_mem ',' a seg hseg
            · show '"' ∉ seg
              intro hm
              exact ha '"' (splitOnChar_mem_subset ',' a seg hseg '"' hm) rfl

/-- C1: serialize-then-reparse round trip — every Input value constructed
by a successful deserialization of rule text reparses from its own
serialization to an equal value, and the same holds for every successfully
constructed Selector (under §4.2's prefix-plus-key rendering), for every
deserialized input list, and for every deserialized SecRule aggregate.
The text-to-tree step is modelled from the spec, as the grammar file is
not among the sources. -/
theorem c1_roundtrip :
    (∀ (s : String) (v : Input), deserializeInputText s = some v →
      deserializeInputText v.serialize = some v)
  ∧ (∀ (s : String) (v : Selector), deserializeSelectorText s = some v →
      deserializeSelectorText (selectorRender v) = some v)
  ∧ (∀ (s : String) (l : List Input), deserializeInputsText s = some l →
      deserializeInputsText (serializeInputs l) = some l)
  ∧ (∀ (s : String) (r : SecRule), deserializeSecRuleText s = some r →
      deserializeSecRuleText r.serialize = some r) := by
  refine ⟨?_, ?_, ?_, ?_⟩
  · intro s v h
    exact deserializeInputText_serialize v (deserializeInputText_WF s v h)
  · intro s v h
    exact deserializeSelectorText_render v (deserializeSelectorText_WF s v h)
  · intro s l h
    obtain ⟨h1, h2⟩ := deserializeInputsText_WF s l h
    exact deserializeInputsText_serialize l h1 h2
  · intro s r h
    exact deserializeSecRuleText_serialize r (deserializeSecRuleText_WF s r h)

/-- C1 witness: the round trip at concrete parses — an exclude-selector
input, a count selector, a two-element input list, and a full directive. -/
theorem c1_roundtrip_witness :
    deserializeInputText
        (Input.serialize ⟨.RequestHeaders, .Exclude "X-Forwarded-For"⟩) =
      some ⟨.RequestHeaders, .Exclude "X-Forwarded-For"⟩ ∧
    deserializeSelectorText (selectorRender (.Count "id")) =
      some (.Count "id") ∧
    deserializeInputsText
        (serializeInputs [⟨.ArgsGet, .None⟩, ⟨.Files, .CountAll⟩]) =
      some [⟨.ArgsGet, .None⟩, ⟨.Files, .CountAll⟩] ∧
    deserializeSecRuleText
        (SecRule.serialize ⟨[⟨.Args, .Include "x"⟩], ⟨"@rx foo"⟩, [⟨"deny"⟩]⟩) =
      some ⟨[⟨.Args, .Include "x"⟩], ⟨"@rx foo"⟩, [⟨"deny"⟩]⟩ :=
  ⟨c1_roundtrip.1 "!REQUEST_HEADERS:X-Forwarded-For" _ (by decide),
   c1_roundtrip.2.1 "&id" _ (by decide),
   c1_roundtrip.2.2.1 "ARGS_GET|&FILES" _ (by decide),
   c1_roundtrip.2.2.2 "SecRule ARGS:x \"@rx foo\" \"deny\"" _ (by decide)⟩

end ParseCrs
